import Mathlib

/-!
Verification of the SalesTracker persistence layer
(`src/services/database.js`) and the break-even calculation
(`src/components/Analytics.jsx`).

Modelling conventions:
* ISO `YYYY-MM-DD` date strings (compared in the source either as strings
  or as `Date` objects, both order-isomorphic to day numbers) are modelled
  as integers counting days.
* JS numbers holding money are modelled as rationals (`ℚ`).
* Record identifiers are strings; a property that may be `undefined`
  (such as `item.id` on a not-yet-saved inventory item) is an `Option`.
* `localStorage`-backed collections are fields of an explicit
  `LocalState` record; each local operation is a pure function on it.
* Supabase tables are fields of a `RemoteDb` record; each remote
  operation is a pure function on it, with the database-enforced parts
  (unique composite keys, `on delete cascade`) taken from
  `supabase/schema.sql`.
-/

namespace SalesTracker

/-- A row of the `weekly_deductions` table, or of the
    `salestracker_weekly_deductions` local collection:
    `{ employeeId, weekStart, amount }`. -/
structure WeeklyDeduction where
  employeeId : String
  weekStart  : Int
  amount     : ℚ
  deriving Repr, DecidableEq

/-- JS object-accumulator update `byEmployee[id] = (byEmployee[id] || 0) + amt`:
    a JS object keeps one entry per key in insertion order, so the update
    adds to the entry for `k` when present and appends `(k, a)` otherwise. -/
def objAdd : List (String × ℚ) → String → ℚ → List (String × ℚ)
  | [], k, a => [(k, a)]
  | (k', v) :: rest, k, a =>
      if k' = k then (k', v + a) :: rest else (k', v) :: objAdd rest k a

/-- `getDeductionsForDateRangeLocal(startDate, endDate)`: widens the lower
    bound by 6 days (`startMinus6`), keeps the deductions whose `weekStart`
    lies in `[startMinus6, endDate]` and sums the amounts per employee into
    a `byEmployee` object, returned as its entry list. -/
def getDeductionsForDateRangeLocal (list : List WeeklyDeduction)
    (startDate endDate : Int) : List (String × ℚ) :=
  let startMinus6 := startDate - 6
  list.foldl
    (fun acc d =>
      if startMinus6 ≤ d.weekStart ∧ d.weekStart ≤ endDate then
        objAdd acc d.employeeId d.amount
      else acc) []

/-- `getDeductionsForDateRangeSupabase(startDate, endDate)`: the remote
    query selects the rows with `week_start` between `weekStartFrom`
    (= start − 6 days) and `endDate`, then the client sums the amounts per
    employee into a `byEmployee` object, returned as its entry list. -/
def getDeductionsForDateRangeSupabase (table : List WeeklyDeduction)
    (startDate endDate : Int) : List (String × ℚ) :=
  let weekStartFrom := startDate - 6
  let data := table.filter
    (fun r => weekStartFrom ≤ r.weekStart ∧ r.weekStart ≤ endDate)
  data.foldl (fun acc r => objAdd acc r.employeeId r.amount) []

/-- Total amount attributed to employee `e` in a `{ employeeId, amount }`
    result list (the per-key sum; keys are unique in results built by
    `objAdd`, so this is the employee's single entry, or `0` if absent). -/
def sumFor (out : List (String × ℚ)) (e : String) : ℚ :=
  ((out.filter (fun p => p.1 = e)).map (·.2)).sum

theorem sumFor_nil (e : String) : sumFor [] e = 0 := rfl

theorem sumFor_cons (k : String) (v : ℚ) (l : List (String × ℚ)) (e : String) :
    sumFor ((k, v) :: l) e = (if k = e then v else 0) + sumFor l e := by
  by_cases h : k = e
  · simp [sumFor, h]
  · simp [sumFor, h]

theorem sumFor_objAdd (l : List (String × ℚ)) (k : String) (a : ℚ) (e : String) :
    sumFor (objAdd l k a) e = sumFor l e + if k = e then a else 0 := by
  induction l with
  | nil =>
      rw [show objAdd [] k a = [(k, a)] from rfl, sumFor_cons, sumFor_nil]
      ring
  | cons p rest ih =>
      obtain ⟨k', v⟩ := p
      by_cases hk : k' = k
      · subst hk
        have hrw : objAdd ((k', v) :: rest) k' a = (k', v + a) :: rest := by
          simp [objAdd]
        rw [hrw, sumFor_cons, sumFor_cons]
        by_cases h : k' = e
        · simp only [if_pos h]; ring
        · simp only [if_neg h]; ring
      · simp only [objAdd, if_neg hk]
        rw [sumFor_cons, sumFor_cons, ih]
        ring

theorem sumFor_foldl_objAdd (rows : List WeeklyDeduction)
    (P : WeeklyDeduction → Prop) [DecidablePred P]
    (init : List (String × ℚ)) (e : String) :
    sumFor (rows.foldl
      (fun acc d => if P d then objAdd acc d.employeeId d.amount else acc) init) e
      = sumFor init e
        + (((rows.filter (fun d => P d ∧ d.employeeId = e)).map (·.amount)).sum) := by
  induction rows generalizing init with
  | nil => simp
  | cons d rest ih =>
      by_cases hP : P d
      · simp only [List.foldl_cons, if_pos hP, List.filter_cons]
        rw [ih, sumFor_objAdd]
        by_cases he : d.employeeId = e
        · simp [hP, he]; ring
        · simp [hP, he]
      · simp only [List.foldl_cons, if_neg hP, List.filter_cons]
        rw [ih]
        simp [hP]

/-- C1. For every stored collection of WeeklyDeduction rows and every date
    range `[start, end]`, `getDeductionsForDateRange(start, end)` returns,
    for each employee, the sum of the amounts of exactly those rows whose
    `weekStart` lies in `[start − 6, end]`; a deduction with
    `weekStart = start − 6` is included and one with
    `weekStart = start − 7` is excluded, on both the remote and the
    fallback backend. -/
theorem getDeductionsForDateRange_correct
    (rows : List WeeklyDeduction) (startDate endDate : Int)
    (eid : String) (a : ℚ) :
    (sumFor (getDeductionsForDateRangeLocal rows startDate endDate) eid
      = ((rows.filter (fun d => d.employeeId = eid ∧
            startDate - 6 ≤ d.weekStart ∧ d.weekStart ≤ endDate)).map (·.amount)).sum)
    ∧ (sumFor (getDeductionsForDateRangeSupabase rows startDate endDate) eid
      = ((rows.filter (fun d => d.employeeId = eid ∧
            startDate - 6 ≤ d.weekStart ∧ d.weekStart ≤ endDate)).map (·.amount)).sum)
    ∧ (startDate ≤ endDate →
        sumFor (getDeductionsForDateRangeLocal
          [⟨eid, startDate - 6, a⟩] startDate endDate) eid = a)
    ∧ (sumFor (getDeductionsForDateRangeLocal
          [⟨eid, startDate - 7, a⟩] startDate endDate) eid = 0)
    ∧ (startDate ≤ endDate →
        sumFor (getDeductionsForDateRangeSupabase
          [⟨eid, startDate - 6, a⟩] startDate endDate) eid = a)
    ∧ (sumFor (getDeductionsForDateRangeSupabase
          [⟨eid, startDate - 7, a⟩] startDate endDate) eid = 0) := by
  have hloc : ∀ (rs : List WeeklyDeduction),
      sumFor (getDeductionsForDateRangeLocal rs startDate endDate) eid
        = ((rs.filter (fun d => d.employeeId = eid ∧
            startDate - 6 ≤ d.weekStart ∧ d.weekStart ≤ endDate)).map (·.amount)).sum := by
    intro rs
    unfold getDeductionsForDateRangeLocal
    rw [sumFor_foldl_objAdd rs
      (fun d => startDate - 6 ≤ d.weekStart ∧ d.weekStart ≤ endDate) [] eid]
    rw [sumFor_nil, zero_add]
    have hfilt : rs.filter
        (fun d => decide ((startDate - 6 ≤ d.weekStart ∧ d.weekStart ≤ endDate)
          ∧ d.employeeId = eid))
        = rs.filter (fun d => decide (d.employeeId = eid ∧
            startDate - 6 ≤ d.weekStart ∧ d.weekStart ≤ endDate)) := by
      apply List.filter_congr
      intro d _
      simp only [decide_eq_decide]
      tauto
    rw [hfilt]
  have hsup : ∀ (rs : List WeeklyDeduction),
      sumFor (getDeductionsForDateRangeSupabase rs startDate endDate) eid
        = ((rs.filter (fun d => d.employeeId = eid ∧
            startDate - 6 ≤ d.weekStart ∧ d.weekStart ≤ endDate)).map (·.amount)).sum := by
    intro rs
    unfold getDeductionsForDateRangeSupabase
    have hfold :
        (rs.filter (fun r => startDate - 6 ≤ r.weekStart ∧ r.weekStart ≤ endDate)).foldl
            (fun acc r => objAdd acc r.employeeId r.amount) []
          = (rs.filter (fun r => startDate - 6 ≤ r.weekStart ∧ r.weekStart ≤ endDate)).foldl
            (fun acc r => if True then objAdd acc r.employeeId r.amount else acc) [] := by
      simp
    rw [hfold, sumFor_foldl_objAdd _ (fun _ => True) [] eid]
    rw [sumFor_nil, zero_add, List.filter_filter]
    have hfilt : rs.filter
        (fun d => decide (True ∧ d.employeeId = eid)
          && decide (startDate - 6 ≤ d.weekStart ∧ d.weekStart ≤ endDate))
        = rs.filter (fun d => decide (d.employeeId = eid ∧
            startDate - 6 ≤ d.weekStart ∧ d.weekStart ≤ endDate)) := by
      apply List.filter_congr
      intro d _
      simp only [Bool.and_eq_true, decide_eq_true_eq, true_and]
      by_cases h1 : d.employeeId = eid
      · by_cases h2 : startDate - 6 ≤ d.weekStart ∧ d.weekStart ≤ endDate
        · simp [h1, h2]
        · simp [h1, h2]
      · simp [h1]
    rw [hfilt]
  refine ⟨hloc rows, hsup rows, ?_, ?_, ?_, ?_⟩
  · intro hle
    rw [hloc [⟨eid, startDate - 6, a⟩]]
    have h6 : startDate - 6 ≤ endDate := by omega
    simp [h6]
  · rw [hloc [⟨eid, startDate - 7, a⟩]]
    have h7 : ¬ (startDate ≤ startDate - 7 + 6) := by omega
    simp [h7]
  · intro hle
    rw [hsup [⟨eid, startDate - 6, a⟩]]
    have h6 : startDate - 6 ≤ endDate := by omega
    simp [h6]
  · rw [hsup [⟨eid, startDate - 7, a⟩]]
    have h7 : ¬ (startDate ≤ startDate - 7 + 6) := by omega
    simp [h7]

/-- Witness for C1 at a concrete input: range `[10, 12]`, one deduction at
    week start `4` (= 10 − 6, included) and one at `3` (= 10 − 7, excluded). -/
theorem getDeductionsForDateRange_correct_witness :
    sumFor (getDeductionsForDateRangeLocal
      [⟨"e1", (4 : Int), (25 : ℚ)⟩, ⟨"e1", (3 : Int), (40 : ℚ)⟩] 10 12) "e1" = 25 := by
  have h := getDeductionsForDateRange_correct
    [⟨"e1", (4 : Int), (25 : ℚ)⟩, ⟨"e1", (3 : Int), (40 : ℚ)⟩] 10 12 "e1" 25
  rw [h.1]
  norm_num [List.filter_cons, List.filter_nil]

/-! ## Row and domain types -/

/-- An inventory item. `id` is an `Option` because a not-yet-saved item is
    submitted with `id: undefined` (`InventoryManager.handleSubmit` sets
    `id: formData.id || undefined`), and `JSON.stringify` drops an
    `undefined` property, so a stored local row can lack the field. -/
structure InventoryItem where
  id          : Option String
  name        : String
  price       : ℚ
  quantity    : Int
  description : String
  deriving Repr, DecidableEq

/-- A raw employee row of the `salestracker_employees` collection: exactly
    the fields written by `saveEmployeeLocal`. -/
structure EmployeeRow where
  id         : String
  name       : String
  salaryRate : ℚ
  storeId    : Option String
  deriving Repr, DecidableEq

/-- A normalized employee as returned by `getEmployees` on either backend.
    `employeeType` models the JS property of that name read by the
    break-even calculation in `Analytics.jsx`
    (`e.employeeType === 'main'`); reading a property an object does not
    have yields `undefined`, modelled as `none`. -/
structure Employee where
  id           : String
  name         : String
  salaryRate   : ℚ
  storeId      : Option String
  employeeType : Option String
  deriving Repr, DecidableEq

/-- A raw attendance row (`{ id, employeeId, date }`), the local shape
    written by `toggleAttendanceLocal`. -/
structure AttendanceRow where
  id         : String
  employeeId : String
  date       : Int
  deriving Repr, DecidableEq

/-- The normalized `{ employeeId, date }` pair returned by
    `getAttendanceForWeek`. -/
structure AttendancePair where
  employeeId : String
  date       : Int
  deriving Repr, DecidableEq

/-- A weekly payment row `{ employeeId, weekStart, paid }`. -/
structure WeeklyPaymentRow where
  employeeId : String
  weekStart  : Int
  paid       : Bool
  deriving Repr, DecidableEq

/-- A store in its normalized domain shape. -/
structure Store where
  id                   : String
  name                 : String
  color                : String
  monthlyRent          : ℚ
  monthlyUtilityBills  : ℚ
  monthlyOtherExpenses : ℚ
  markupPercentage     : ℚ
  deriving Repr, DecidableEq

/-- A store daily sale row `{ storeId, date, amount }`. -/
structure StoreDailySale where
  storeId : String
  date    : Int
  amount  : ℚ
  deriving Repr, DecidableEq

/-- A store monthly expenses row. -/
structure StoreMonthlyExpensesRow where
  storeId                 : String
  yearMonth               : String
  monthlyRent             : ℚ
  monthlyUtilityBills     : ℚ
  monthlyEmployeeSalaries : ℚ
  monthlyOtherExpenses    : ℚ
  deriving Repr, DecidableEq

/-- A sale row (denormalized snapshot of the sold item). -/
structure Sale where
  id           : Option String
  itemId       : Option String
  itemName     : String
  quantity     : Int
  price        : ℚ
  total        : ℚ
  customerName : String
  date         : Int
  deriving Repr, DecidableEq

/-! ## The local (fallback) backend

`localStorage` holds one JSON-encoded collection per `STORAGE_KEYS` entry;
we model the whole of it as one record, and each `...Local` function of
`database.js` as a pure function on it. -/

structure LocalState where
  inventory            : List InventoryItem
  sales                : List Sale
  employees            : List EmployeeRow
  employeeOrder        : List String
  attendance           : List AttendanceRow
  weeklyPayments       : List WeeklyPaymentRow
  weeklyDeductions     : List WeeklyDeduction
  stores               : List Store
  storeOrder           : List String
  storeDailySales      : List StoreDailySale
  storeMonthlyExpenses : List StoreMonthlyExpensesRow
  deriving Repr, DecidableEq

/-- The state of a fresh browser profile: every collection key absent,
    each read defaulting to `[]`. -/
def emptyLocalState : LocalState :=
  ⟨[], [], [], [], [], [], [], [], [], [], []⟩

/-- The JS pattern `idx = list.findIndex(pred); idx >= 0 ? list[idx] = x
    : list.push(x)`: replace the first element satisfying `pred` by `x`,
    or append `x` when none does. -/
def replaceFirstOrPush (pred : α → Bool) (x : α) : List α → List α
  | [] => [x]
  | y :: rest => if pred y then x :: rest else y :: replaceFirstOrPush pred x rest

/-- `getInventoryLocal()`. -/
def getInventoryLocal (st : LocalState) : List InventoryItem :=
  st.inventory

/-- `saveInventoryItemLocal(item)`: replaces the first inventory entry
    whose `id` strictly equals `item.id` (JS `===`; `undefined ===
    undefined` is true, hence `Option` equality), else pushes; returns the
    item unchanged — note that unlike `saveEmployeeLocal` and
    `saveStoreLocal` it never generates an id. -/
def saveInventoryItemLocal (st : LocalState) (item : InventoryItem) :
    LocalState × InventoryItem :=
  ({ st with inventory :=
      replaceFirstOrPush (fun i => i.id = item.id) item st.inventory },
   item)

/-- `deleteInventoryItemLocal(id)`. -/
def deleteInventoryItemLocal (st : LocalState) (id : String) : LocalState :=
  { st with inventory := st.inventory.filter (fun i => i.id ≠ some id) }

/-- `deleteEmployeeLocal(id)`: filters the employee list and the order
    list — and nothing else (no attendance / payment / deduction cleanup). -/
def deleteEmployeeLocal (st : LocalState) (id : String) : LocalState :=
  { st with
    employees := st.employees.filter (fun e => e.id ≠ id),
    employeeOrder := st.employeeOrder.filter (fun oid => oid ≠ id) }

/-- `getAttendanceForWeekLocal(startDate, endDate)`: date-range filter and
    normalization to `{ employeeId, date }` — no filtering by employee. -/
def getAttendanceForWeekLocal (st : LocalState) (startDate endDate : Int) :
    List AttendancePair :=
  (st.attendance.filter (fun a => startDate ≤ a.date ∧ a.date ≤ endDate)).map
    (fun a => ⟨a.employeeId, a.date⟩)

/-- The callback `(a) => a.employeeId === employeeId && a.date === dateStr`
    used by `toggleAttendanceLocal`'s `findIndex` and by the presence
    checks below. -/
def attMatch (eid : String) (d : Int) : AttendanceRow → Bool :=
  fun a => a.employeeId = eid ∧ a.date = d

/-- `toggleAttendanceLocal(employeeId, dateStr)`: if a record for the pair
    exists, `splice` removes the first one and the call returns `false`;
    otherwise a record is pushed (with a fresh random id, modelled by the
    `freshId` argument) and the call returns `true` (`idx < 0`). -/
def toggleAttendanceLocal (st : LocalState) (employeeId : String)
    (dateStr : Int) (freshId : String) : LocalState × Bool :=
  if st.attendance.any (attMatch employeeId dateStr) then
    ({ st with attendance := st.attendance.eraseP (attMatch employeeId dateStr) },
     false)
  else
    ({ st with attendance := st.attendance ++ [⟨freshId, employeeId, dateStr⟩] },
     true)

/-- `saveStoreDailySaleLocal(storeId, dateStr, amount)`: scan-and-replace
    upsert on the `(storeId, date)` natural key. -/
def saveStoreDailySaleLocal (st : LocalState) (storeId : String)
    (dateStr : Int) (amount : ℚ) : LocalState :=
  let record : StoreDailySale := ⟨storeId, dateStr, amount⟩
  let sales := replaceFirstOrPush
    (fun s => s.storeId = storeId ∧ s.date = dateStr) record st.storeDailySales
  { st with storeDailySales := sales }

/-- `getStoreSalesForWeekLocal(startDate, endDate)`. -/
def getStoreSalesForWeekLocal (st : LocalState) (startDate endDate : Int) :
    List StoreDailySale :=
  (st.storeDailySales.filter (fun s => startDate ≤ s.date ∧ s.date ≤ endDate)).map
    (fun s => ⟨s.storeId, s.date, s.amount⟩)

/-- `deleteStoreLocal(id)`: removes the store row, its display-order entry
    and its dependent StoreDailySale rows; touches no other collection. -/
def deleteStoreLocal (st : LocalState) (id : String) : LocalState :=
  { st with
    stores := st.stores.filter (fun s => s.id ≠ id),
    storeOrder := st.storeOrder.filter (fun oid => oid ≠ id),
    storeDailySales := st.storeDailySales.filter (fun s => s.storeId ≠ id) }

/-- C9. In the fallback backend, `deleteStore(id)` removes the Store row,
    the store's display-order entry and every StoreDailySale row with that
    `storeId`, and changes nothing else — in particular every Employee
    row, including one whose `storeId` references the deleted store, is
    left unchanged. -/
theorem deleteStoreLocal_frame (st : LocalState) (id : String) :
    ((deleteStoreLocal st id).stores = st.stores.filter (fun s => s.id ≠ id))
    ∧ ((deleteStoreLocal st id).storeOrder
        = st.storeOrder.filter (fun oid => oid ≠ id))
    ∧ (∀ s ∈ (deleteStoreLocal st id).storeDailySales, s.storeId ≠ id)
    ∧ (∀ s ∈ st.storeDailySales,
        s.storeId ≠ id → s ∈ (deleteStoreLocal st id).storeDailySales)
    ∧ ((deleteStoreLocal st id).employees = st.employees)
    ∧ ((deleteStoreLocal st id).inventory = st.inventory)
    ∧ ((deleteStoreLocal st id).sales = st.sales)
    ∧ ((deleteStoreLocal st id).employeeOrder = st.employeeOrder)
    ∧ ((deleteStoreLocal st id).attendance = st.attendance)
    ∧ ((deleteStoreLocal st id).weeklyPayments = st.weeklyPayments)
    ∧ ((deleteStoreLocal st id).weeklyDeductions = st.weeklyDeductions)
    ∧ ((deleteStoreLocal st id).storeMonthlyExpenses = st.storeMonthlyExpenses) := by
  refine ⟨rfl, rfl, ?_, ?_, rfl, rfl, rfl, rfl, rfl, rfl, rfl, rfl⟩
  · intro s hs
    have := List.of_mem_filter hs
    simpa using this
  · intro s hs hid
    simp only [deleteStoreLocal, List.mem_filter]
    exact ⟨hs, by simpa using hid⟩

/-- The state C3 is evaluated at: one employee `"e1"` with two attendance
    rows on days `100` and `101`. -/
def c3State : LocalState :=
  { emptyLocalState with
    employees := [⟨"e1", "Ana", 500, none⟩],
    employeeOrder := ["e1"],
    attendance := [⟨"a1", "e1", 100⟩, ⟨"a2", "e1", 101⟩] }

/-- C3 (failing evaluation). The spec requires that after `deleteEmployee`
    the fallback backend return zero attendance rows for the deleted
    employee, the fallback having to "filter dependents manually"; but
    `deleteEmployeeLocal` filters only the employee and order collections,
    so the two attendance rows of the deleted employee survive and are
    returned by `getAttendanceForWeek` over their date range. -/
theorem deleteEmployeeLocal_leaves_attendance :
    ((deleteEmployeeLocal c3State "e1").employees = [])
    ∧ (getAttendanceForWeekLocal (deleteEmployeeLocal c3State "e1") 100 106
        = [⟨"e1", 100⟩, ⟨"e1", 101⟩]) := by
  constructor
  · rfl
  · rfl

/-! ## The remote (Supabase) backend

One table per entity, `snake_case` columns, with the database-enforced
parts (primary keys, unique composite constraints, `on delete cascade`)
taken from `supabase/schema.sql`.  Backend-generated values
(`gen_random_uuid()` ids) are passed in as explicit arguments. -/

structure InventoryRow where
  id          : String
  name        : String
  price       : ℚ
  quantity    : Int
  description : String
  deriving Repr, DecidableEq

structure SaleRow where
  id            : String
  item_id       : Option String
  item_name     : String
  quantity      : Int
  price         : ℚ
  total         : ℚ
  customer_name : String
  date          : Int
  deriving Repr, DecidableEq

structure EmployeeDbRow where
  id            : String
  name          : String
  salary_rate   : ℚ
  display_order : Int
  store_id      : Option String
  deriving Repr, DecidableEq

structure AttendanceDbRow where
  id          : String
  employee_id : String
  date        : Int
  deriving Repr, DecidableEq

structure PaymentDbRow where
  employee_id : String
  week_start  : Int
  paid        : Bool
  deriving Repr, DecidableEq

structure StoreDbRow where
  id                     : String
  name                   : String
  color                  : String
  display_order          : Int
  monthly_rent           : ℚ
  monthly_utility_bills  : ℚ
  monthly_other_expenses : ℚ
  markup_percentage      : ℚ
  deriving Repr, DecidableEq

structure SdsDbRow where
  store_id : String
  date     : Int
  amount   : ℚ
  deriving Repr, DecidableEq

structure SmeDbRow where
  store_id                  : String
  year_month                : String
  monthly_rent              : ℚ
  monthly_utility_bills     : ℚ
  monthly_employee_salaries : ℚ
  monthly_other_expenses    : ℚ
  deriving Repr, DecidableEq

structure RemoteDb where
  inventory              : List InventoryRow
  sales                  : List SaleRow
  employees              : List EmployeeDbRow
  attendance             : List AttendanceDbRow
  weekly_payments        : List PaymentDbRow
  weekly_deductions      : List WeeklyDeduction
  stores                 : List StoreDbRow
  store_daily_sales      : List SdsDbRow
  store_monthly_expenses : List SmeDbRow
  deriving Repr, DecidableEq

def emptyRemoteDb : RemoteDb := ⟨[], [], [], [], [], [], [], [], []⟩

/-- `getInventorySupabase()`: all rows ordered by `created_at` descending
    (newest first, i.e. reverse insertion order), normalized to the domain
    shape. -/
def getInventorySupabase (db : RemoteDb) : List InventoryItem :=
  db.inventory.reverse.map
    (fun r => ⟨some r.id, r.name, r.price, r.quantity, r.description⟩)

/-- `saveInventoryItemSupabase(item)`: with an id, updates the matching
    row and returns `{ id: data.id, ...row }`; without one, inserts a row
    (the backend generating its id, modelled by `newId`) and returns the
    normalized row carrying the new id. -/
def saveInventoryItemSupabase (db : RemoteDb) (item : InventoryItem)
    (newId : String) : RemoteDb × InventoryItem :=
  match item.id with
  | some iid =>
      let inv := db.inventory.map (fun r =>
        if r.id = iid then
          { r with name := item.name, price := item.price,
                   quantity := item.quantity, description := item.description }
        else r)
      ({ db with inventory := inv },
       ⟨some iid, item.name, item.price, item.quantity, item.description⟩)
  | none =>
      let row : InventoryRow :=
        ⟨newId, item.name, item.price, item.quantity, item.description⟩
      ({ db with inventory := db.inventory ++ [row] },
       ⟨some newId, item.name, item.price, item.quantity, item.description⟩)

/-- The new inventory item of C7's round-trip scenario, submitted without
    an identifier. -/
def c7Widget : InventoryItem := ⟨none, "Widget", 5, 2, "blue"⟩

/-- C7 (failing evaluation). Saving an InventoryItem without an id through
    the remote backend assigns and returns a fresh identifier with all
    fields preserved — but the fallback path (`saveInventoryItemLocal`)
    never generates an id: the value returned and the entry read back by
    `getInventory` keep `id` undefined, so no "newly assigned non-empty
    identifier" exists on the fallback backend. -/
theorem saveInventoryItem_no_local_id :
    ((saveInventoryItemLocal emptyLocalState c7Widget).2.id = none)
    ∧ (getInventoryLocal (saveInventoryItemLocal emptyLocalState c7Widget).1
        = [c7Widget])
    ∧ ((saveInventoryItemSupabase emptyRemoteDb c7Widget "uuid-1").2
        = ⟨some "uuid-1", "Widget", 5, 2, "blue"⟩)
    ∧ (getInventorySupabase (saveInventoryItemSupabase emptyRemoteDb c7Widget "uuid-1").1
        = [⟨some "uuid-1", "Widget", 5, 2, "blue"⟩]) :=
  ⟨rfl, rfl, rfl, rfl⟩

/-! ## Natural-key upsert lemmas

`replaceFirstOrPush` is the scan-and-replace upsert used by every
`...Local` write keyed by a natural composite key, and also models the
backend `upsert(..., { onConflict })` on a unique-constrained table. -/

theorem replaceFirstOrPush_mem_keys {α β : Type} (keyf : α → β) (p : α → Bool)
    (x : α) :
    ∀ (l : List α) (b : β), b ∈ (replaceFirstOrPush p x l).map keyf →
      b ∈ l.map keyf ∨ b = keyf x := by
  intro l
  induction l with
  | nil =>
      intro b h
      simp only [replaceFirstOrPush, List.map_cons, List.map_nil,
        List.mem_singleton] at h
      exact Or.inr h
  | cons y rest ih =>
      intro b h
      by_cases hy : p y = true
      · rw [show replaceFirstOrPush p x (y :: rest) = x :: rest from by
          simp [replaceFirstOrPush, hy]] at h
        rw [List.map_cons, List.mem_cons] at h
        rcases h with h | h
        · exact Or.inr h
        · exact Or.inl (by rw [List.map_cons]; exact List.mem_cons_of_mem _ h)
      · rw [show replaceFirstOrPush p x (y :: rest)
            = y :: replaceFirstOrPush p x rest from by
          simp [replaceFirstOrPush, hy]] at h
        rw [List.map_cons, List.mem_cons] at h
        rcases h with h | h
        · exact Or.inl (by rw [List.map_cons, List.mem_cons]; exact Or.inl h)
        · rcases ih b h with h' | h'
          · exact Or.inl (by rw [List.map_cons]; exact List.mem_cons_of_mem _ h')
          · exact Or.inr h'

theorem replaceFirstOrPush_nodup_keys {α β : Type} [DecidableEq β]
    (keyf : α → β) (p : α → Bool) (x : α)
    (hp : ∀ y, p y = true ↔ keyf y = keyf x) :
    ∀ l : List α, (l.map keyf).Nodup →
      ((replaceFirstOrPush p x l).map keyf).Nodup := by
  intro l
  induction l with
  | nil =>
      intro _
      simp [replaceFirstOrPush]
  | cons y rest ih =>
      intro hnd
      simp only [List.map_cons, List.nodup_cons] at hnd
      by_cases hy : p y
      · have hkey : keyf y = keyf x := (hp y).mp hy
        simp only [replaceFirstOrPush, if_pos hy, List.map_cons, List.nodup_cons]
        exact ⟨by rw [← hkey]; exact hnd.1, hnd.2⟩
      · have hkey : ¬ keyf y = keyf x := fun h => hy ((hp y).mpr h)
        simp only [replaceFirstOrPush, if_neg hy, List.map_cons, List.nodup_cons]
        refine ⟨?_, ih hnd.2⟩
        intro hmem
        rcases replaceFirstOrPush_mem_keys keyf p x rest (keyf y) hmem with h | h
        · exact hnd.1 h
        · exact hkey h

theorem replaceFirstOrPush_filter {α β : Type} [DecidableEq β] [DecidableEq α]
    (keyf : α → β) (p : α → Bool) (x : α)
    (hp : ∀ y, p y = true ↔ keyf y = keyf x) (hpx : p x = true) :
    ∀ l : List α, (l.map keyf).Nodup →
      (replaceFirstOrPush p x l).filter p = [x] := by
  intro l
  induction l with
  | nil =>
      intro _
      simp [replaceFirstOrPush, List.filter_cons, hpx]
  | cons y rest ih =>
      intro hnd
      simp only [List.map_cons, List.nodup_cons] at hnd
      by_cases hy : p y = true
      · have hkey : keyf y = keyf x := (hp y).mp hy
        have hnone : rest.filter p = [] := by
          rw [List.filter_eq_nil_iff]
          intro z hz hpz
          have h1 : keyf z = keyf x := (hp z).mp hpz
          have h2 : keyf y ∈ rest.map keyf := by
            rw [hkey, ← h1]
            exact List.mem_map_of_mem keyf hz
          exact hnd.1 h2
        rw [show replaceFirstOrPush p x (y :: rest) = x :: rest from by
          simp [replaceFirstOrPush, hy]]
        rw [List.filter_cons, if_pos hpx, hnone]
      · rw [show replaceFirstOrPush p x (y :: rest)
            = y :: replaceFirstOrPush p x rest from by
          simp [replaceFirstOrPush, hy]]
        rw [List.filter_cons, if_neg hy]
        exact ih hnd.2

/-- `getStoreSalesForWeekSupabase(startDate, endDate)`. -/
def getStoreSalesForWeekSupabase (db : RemoteDb) (startDate endDate : Int) :
    List StoreDailySale :=
  (db.store_daily_sales.filter
      (fun r => startDate ≤ r.date ∧ r.date ≤ endDate)).map
    (fun r => ⟨r.store_id, r.date, r.amount⟩)

/-- `saveStoreDailySaleSupabase(storeId, dateStr, amount)`:
    `upsert({ store_id, date, amount }, { onConflict: 'store_id,date' })`
    against the `unique(store_id, date)` constraint — the row with that
    key is replaced, or inserted when absent. -/
def saveStoreDailySaleSupabase (db : RemoteDb) (storeId : String)
    (dateStr : Int) (amount : ℚ) : RemoteDb :=
  let row : SdsDbRow := ⟨storeId, dateStr, amount⟩
  let table := replaceFirstOrPush
    (fun s => s.store_id = storeId ∧ s.date = dateStr) row db.store_daily_sales
  { db with store_daily_sales := table }

/-- The `(storeId, date)` natural key of a local/domain row. -/
def sdsKey (s : StoreDailySale) : String × Int := (s.storeId, s.date)

/-- The `(store_id, date)` natural key of a remote row. -/
def sdsDbKey (s : SdsDbRow) : String × Int := (s.store_id, s.date)

/-- C5. At most one StoreDailySale row exists per `(storeId, date)` key: a
    write preserves key-uniqueness, a second write with the same key fully
    replaces the first, and `getStoreSalesForWeek` never returns two rows
    with the same key — on the fallback store (scan-and-replace) and the
    remote store (upsert on the unique constraint) alike. -/
theorem saveStoreDailySale_unique_keys (st : LocalState) (db : RemoteDb)
    (sid : String) (d : Int) (a1 a2 : ℚ)
    (hl : (st.storeDailySales.map sdsKey).Nodup)
    (hr : (db.store_daily_sales.map sdsDbKey).Nodup) :
    (((saveStoreDailySaleLocal st sid d a1).storeDailySales.map sdsKey).Nodup)
    ∧ (((saveStoreDailySaleLocal (saveStoreDailySaleLocal st sid d a1) sid d a2).storeDailySales.filter
          (fun s => s.storeId = sid ∧ s.date = d)) = [⟨sid, d, a2⟩])
    ∧ (∀ s e : Int,
        ((getStoreSalesForWeekLocal (saveStoreDailySaleLocal st sid d a1) s e).map sdsKey).Nodup)
    ∧ (((saveStoreDailySaleSupabase db sid d a1).store_daily_sales.map sdsDbKey).Nodup)
    ∧ (((saveStoreDailySaleSupabase (saveStoreDailySaleSupabase db sid d a1) sid d a2).store_daily_sales.filter
          (fun s => s.store_id = sid ∧ s.date = d)) = [⟨sid, d, a2⟩])
    ∧ (∀ s e : Int,
        ((getStoreSalesForWeekSupabase (saveStoreDailySaleSupabase db sid d a1) s e).map sdsKey).Nodup) := by
  have hpl : ∀ y : StoreDailySale,
      (decide (y.storeId = sid ∧ y.date = d)) = true
        ↔ sdsKey y = sdsKey (⟨sid, d, a1⟩ : StoreDailySale) := by
    intro y
    simp [sdsKey, Prod.ext_iff]
  have hpl2 : ∀ y : StoreDailySale,
      (decide (y.storeId = sid ∧ y.date = d)) = true
        ↔ sdsKey y = sdsKey (⟨sid, d, a2⟩ : StoreDailySale) := by
    intro y
    simp [sdsKey, Prod.ext_iff]
  have hpr : ∀ y : SdsDbRow,
      (decide (y.store_id = sid ∧ y.date = d)) = true
        ↔ sdsDbKey y = sdsDbKey (⟨sid, d, a1⟩ : SdsDbRow) := by
    intro y
    simp [sdsDbKey, Prod.ext_iff]
  have hpr2 : ∀ y : SdsDbRow,
      (decide (y.store_id = sid ∧ y.date = d)) = true
        ↔ sdsDbKey y = sdsDbKey (⟨sid, d, a2⟩ : SdsDbRow) := by
    intro y
    simp [sdsDbKey, Prod.ext_iff]
  have hl1 : (((saveStoreDailySaleLocal st sid d a1).storeDailySales).map sdsKey).Nodup := by
    exact replaceFirstOrPush_nodup_keys sdsKey _ _ hpl st.storeDailySales hl
  have hr1 : (((saveStoreDailySaleSupabase db sid d a1).store_daily_sales).map sdsDbKey).Nodup := by
    exact replaceFirstOrPush_nodup_keys sdsDbKey _ _ hpr db.store_daily_sales hr
  refine ⟨hl1, ?_, ?_, hr1, ?_, ?_⟩
  · exact replaceFirstOrPush_filter sdsKey _ _ hpl2 (by simp)
      (saveStoreDailySaleLocal st sid d a1).storeDailySales hl1
  · intro s e
    have hsub : (((saveStoreDailySaleLocal st sid d a1).storeDailySales.filter
          (fun r => decide (s ≤ r.date ∧ r.date ≤ e))).map sdsKey).Sublist
        (((saveStoreDailySaleLocal st sid d a1).storeDailySales).map sdsKey) :=
      (List.filter_sublist _).map sdsKey
    have : ((getStoreSalesForWeekLocal (saveStoreDailySaleLocal st sid d a1) s e).map sdsKey)
        = (((saveStoreDailySaleLocal st sid d a1).storeDailySales.filter
            (fun r => decide (s ≤ r.date ∧ r.date ≤ e))).map sdsKey) := by
      simp [getStoreSalesForWeekLocal, List.map_map, sdsKey, Function.comp]
    rw [this]
    exact hsub.nodup hl1
  · exact replaceFirstOrPush_filter sdsDbKey _ _ hpr2 (by simp)
      (saveStoreDailySaleSupabase db sid d a1).store_daily_sales hr1
  · intro s e
    have hsub : (((saveStoreDailySaleSupabase db sid d a1).store_daily_sales.filter
          (fun r => decide (s ≤ r.date ∧ r.date ≤ e))).map sdsDbKey).Sublist
        (((saveStoreDailySaleSupabase db sid d a1).store_daily_sales).map sdsDbKey) :=
      (List.filter_sublist _).map sdsDbKey
    have : ((getStoreSalesForWeekSupabase (saveStoreDailySaleSupabase db sid d a1) s e).map sdsKey)
        = (((saveStoreDailySaleSupabase db sid d a1).store_daily_sales.filter
            (fun r => decide (s ≤ r.date ∧ r.date ≤ e))).map sdsDbKey) := by
      simp [getStoreSalesForWeekSupabase, List.map_map, sdsKey, sdsDbKey, Function.comp]
    rw [this]
    exact hsub.nodup hr1

/-- Witness for C5 at a concrete input: one existing row for
    `("s1", 40)`, two successive writes for that key. -/
theorem saveStoreDailySale_unique_keys_witness :
    ((saveStoreDailySaleLocal (saveStoreDailySaleLocal
        { emptyLocalState with storeDailySales := [⟨"s1", 40, 100⟩] }
        "s1" 40 1000) "s1" 40 1500).storeDailySales.filter
          (fun s => s.storeId = "s1" ∧ s.date = 40)) = [⟨"s1", 40, 1500⟩] := by
  have h := saveStoreDailySale_unique_keys
    { emptyLocalState with storeDailySales := [⟨"s1", 40, 100⟩] }
    emptyRemoteDb "s1" 40 1000 1500 (by decide) (by decide)
  exact h.2.1

/-! ## Attendance toggling -/

/-- The `(employeeId, date)` natural key of a local attendance row. -/
def attKey (a : AttendanceRow) : String × Int := (a.employeeId, a.date)

/-- The `(employee_id, date)` natural key of a remote attendance row
    (`unique(employee_id, date)` in the schema). -/
def attDbKey (a : AttendanceDbRow) : String × Int := (a.employee_id, a.date)

/-- The row condition `eq('employee_id', ...).eq('date', ...)` of the
    remote attendance queries. -/
def attDbMatch (eid : String) (d : Int) : AttendanceDbRow → Bool :=
  fun a => a.employee_id = eid ∧ a.date = d

/-- Presence of employee `eid` on day `d` in the local collection: an
    AttendanceRecord exists exactly when such a row does. -/
def hasAttendanceLocal (att : List AttendanceRow) (eid : String) (d : Int) : Bool :=
  att.any (attMatch eid d)

/-- Presence of employee `eid` on day `d` in the remote table. -/
def hasAttendanceDb (att : List AttendanceDbRow) (eid : String) (d : Int) : Bool :=
  att.any (attDbMatch eid d)

/-- `toggleAttendanceSupabase(employeeId, dateStr)`: selects the row for
    the pair with `maybeSingle()` (at most one row exists under the unique
    constraint); when found, deletes by that row's `id` and returns
    `false`; otherwise inserts (backend id modelled by `newId`) and
    returns `true`. -/
def toggleAttendanceSupabase (db : RemoteDb) (employeeId : String)
    (dateStr : Int) (newId : String) : RemoteDb × Bool :=
  match db.attendance.find? (attDbMatch employeeId dateStr) with
  | some row =>
      ({ db with attendance := db.attendance.filter (fun a => a.id ≠ row.id) }, false)
  | none =>
      ({ db with attendance := db.attendance ++ [⟨newId, employeeId, dateStr⟩] }, true)

theorem eraseP_any_eq_false {α β : Type} [DecidableEq β] (keyf : α → β)
    (p : α → Bool) (k : β) (hp : ∀ y, p y = true ↔ keyf y = k) :
    ∀ l : List α, (l.map keyf).Nodup → (l.eraseP p).any p = false := by
  intro l
  induction l with
  | nil => intro _; rfl
  | cons y rest ih =>
      intro hnd
      simp only [List.map_cons, List.nodup_cons] at hnd
      by_cases hy : p y = true
      · rw [List.eraseP_cons_of_pos hy]
        rw [List.any_eq_false]
        intro z hz hpz
        have h1 : keyf z = k := (hp z).mp hpz
        have h2 : keyf y = k := (hp y).mp hy
        exact hnd.1 (by rw [h2, ← h1]; exact List.mem_map_of_mem keyf hz)
      · rw [List.eraseP_cons_of_neg (by simpa using hy)]
        simp only [List.any_cons, Bool.or_eq_false_iff]
        exact ⟨by simpa using hy, ih hnd.2⟩

theorem find?_append_of_none {α : Type} (p : α → Bool) (l₁ l₂ : List α)
    (h : l₁.find? p = none) : (l₁ ++ l₂).find? p = l₂.find? p := by
  induction l₁ with
  | nil => rfl
  | cons y rest ih =>
      rw [List.find?_cons] at h
      by_cases hy : p y = true
      · simp [hy] at h
      · rw [List.cons_append, List.find?_cons]
        simp only [Bool.not_eq_true] at hy
        simp only [hy] at h ⊢
        exact ih h

theorem attMatch_key (eid : String) (d : Int) :
    ∀ y : AttendanceRow, attMatch eid d y = true ↔ attKey y = (eid, d) := by
  intro y
  simp [attMatch, attKey, Prod.ext_iff]

theorem attDbMatch_key (eid : String) (d : Int) :
    ∀ y : AttendanceDbRow, attDbMatch eid d y = true ↔ attDbKey y = (eid, d) := by
  intro y
  simp [attDbMatch, attDbKey, Prod.ext_iff]

theorem toggleAttendanceLocal_unfold_pos (st : LocalState) (eid : String)
    (d : Int) (fid : String)
    (h : st.attendance.any (attMatch eid d) = true) :
    toggleAttendanceLocal st eid d fid
      = ({ st with attendance := st.attendance.eraseP (attMatch eid d) }, false) := by
  unfold toggleAttendanceLocal
  rw [if_pos h]

theorem toggleAttendanceLocal_unfold_neg (st : LocalState) (eid : String)
    (d : Int) (fid : String)
    (h : ¬ st.attendance.any (attMatch eid d) = true) :
    toggleAttendanceLocal st eid d fid
      = ({ st with attendance := st.attendance ++ [⟨fid, eid, d⟩] }, true) := by
  unfold toggleAttendanceLocal
  rw [if_neg h]

theorem toggleAttendanceLocal_iff (st : LocalState) (eid : String) (d : Int)
    (fid : String) (hl : (st.attendance.map attKey).Nodup) :
    (toggleAttendanceLocal st eid d fid).2 = true
      ↔ hasAttendanceLocal (toggleAttendanceLocal st eid d fid).1.attendance eid d = true := by
  by_cases hpres : st.attendance.any (attMatch eid d) = true
  · rw [toggleAttendanceLocal_unfold_pos st eid d fid hpres]
    have herase := eraseP_any_eq_false attKey (attMatch eid d) (eid, d)
      (attMatch_key eid d) st.attendance hl
    simp [hasAttendanceLocal, herase]
  · rw [toggleAttendanceLocal_unfold_neg st eid d fid hpres]
    simp only [hasAttendanceLocal, List.any_append]
    have hnew : attMatch eid d (⟨fid, eid, d⟩ : AttendanceRow) = true := by
      simp [attMatch]
    simp [hnew]

theorem toggleAttendanceLocal_twice (st : LocalState) (eid : String) (d : Int)
    (fid1 fid2 : String) (hl : (st.attendance.map attKey).Nodup) :
    hasAttendanceLocal
        ((toggleAttendanceLocal (toggleAttendanceLocal st eid d fid1).1 eid d fid2).1.attendance)
        eid d
      = hasAttendanceLocal st.attendance eid d := by
  by_cases hpres : st.attendance.any (attMatch eid d) = true
  · rw [toggleAttendanceLocal_unfold_pos st eid d fid1 hpres]
    have herase := eraseP_any_eq_false attKey (attMatch eid d) (eid, d)
      (attMatch_key eid d) st.attendance hl
    rw [toggleAttendanceLocal_unfold_neg _ eid d fid2 (by simp [herase])]
    simp only [hasAttendanceLocal, List.any_append]
    have hnew : attMatch eid d (⟨fid2, eid, d⟩ : AttendanceRow) = true := by
      simp [attMatch]
    simp [hnew, hpres]
  · rw [toggleAttendanceLocal_unfold_neg st eid d fid1 hpres]
    have hnew : attMatch eid d (⟨fid1, eid, d⟩ : AttendanceRow) = true := by
      simp [attMatch]
    have hany2 : (st.attendance ++ [(⟨fid1, eid, d⟩ : AttendanceRow)]).any
        (attMatch eid d) = true := by
      rw [List.any_append]
      simp [hnew]
    rw [toggleAttendanceLocal_unfold_pos _ eid d fid2 hany2]
    have hnd2 : ((st.attendance ++ [(⟨fid1, eid, d⟩ : AttendanceRow)]).map attKey).Nodup := by
      rw [List.map_append, List.nodup_append]
      refine ⟨hl, by simp, ?_⟩
      intro k hk hk2
      simp only [List.map_cons, List.map_nil, List.mem_singleton] at hk2
      obtain ⟨a, ha, rfl⟩ := List.mem_map.mp hk
      have hpres2 : ∀ x ∈ st.attendance, ¬ (attMatch eid d x = true) :=
        List.any_eq_false.mp (by simpa using hpres)
      exact hpres2 a ha ((attMatch_key eid d a).mpr (by simpa [attKey] using hk2))
    have herase2 := eraseP_any_eq_false attKey (attMatch eid d) (eid, d)
      (attMatch_key eid d) (st.attendance ++ [⟨fid1, eid, d⟩]) hnd2
    simp only [hasAttendanceLocal, herase2]
    simpa using hpres

theorem toggleAttendanceSupabase_iff (db : RemoteDb) (eid : String) (d : Int)
    (fid : String) (hr : (db.attendance.map attDbKey).Nodup) :
    (toggleAttendanceSupabase db eid d fid).2 = true
      ↔ hasAttendanceDb (toggleAttendanceSupabase db eid d fid).1.attendance eid d = true := by
  rcases hfind : db.attendance.find? (attDbMatch eid d) with _ | row
  · simp only [toggleAttendanceSupabase, hfind, hasAttendanceDb, List.any_append]
    have hnew : attDbMatch eid d (⟨fid, eid, d⟩ : AttendanceDbRow) = true := by
      simp [attDbMatch]
    simp [hnew]
  · have hmem : row ∈ db.attendance := List.mem_of_find?_eq_some hfind
    have hprow : attDbMatch eid d row = true := List.find?_some hfind
    have hnone : (db.attendance.filter (fun a => a.id ≠ row.id)).any
        (attDbMatch eid d) = false := by
      rw [List.any_eq_false]
      intro z hz hpz
      have hz' := List.mem_filter.mp hz
      have hkeys : attDbKey z = attDbKey row := by
        rw [(attDbMatch_key eid d z).mp hpz, (attDbMatch_key eid d row).mp hprow]
      have := List.inj_on_of_nodup_map hr hz'.1 hmem hkeys
      subst this
      simp at hz'
    simp only [toggleAttendanceSupabase, hfind, hasAttendanceDb]
    rw [hnone]

theorem toggleAttendanceSupabase_twice (db : RemoteDb) (eid : String) (d : Int)
    (fid1 fid2 : String) (hr : (db.attendance.map attDbKey).Nodup) :
    hasAttendanceDb
        ((toggleAttendanceSupabase (toggleAttendanceSupabase db eid d fid1).1 eid d fid2).1.attendance)
        eid d
      = hasAttendanceDb db.attendance eid d := by
  rcases hfind : db.attendance.find? (attDbMatch eid d) with _ | row
  · -- absent: the first call inserts, the second finds the insert and deletes it
    have habs : ∀ a ∈ db.attendance, ¬ (attDbMatch eid d a = true) := by
      intro a ha
      have := List.find?_eq_none.mp hfind a ha
      simpa using this
    have hnew : attDbMatch eid d (⟨fid1, eid, d⟩ : AttendanceDbRow) = true := by
      simp [attDbMatch]
    have hfind2 : (db.attendance ++ [(⟨fid1, eid, d⟩ : AttendanceDbRow)]).find?
        (attDbMatch eid d) = some ⟨fid1, eid, d⟩ := by
      rw [find?_append_of_none _ _ _ hfind]
      rw [List.find?_cons, hnew]
    simp only [toggleAttendanceSupabase, hfind, hfind2]
    have hafter : ((db.attendance ++ [(⟨fid1, eid, d⟩ : AttendanceDbRow)]).filter
        (fun a => a.id ≠ (⟨fid1, eid, d⟩ : AttendanceDbRow).id)).any
        (attDbMatch eid d) = false := by
      rw [List.any_eq_false]
      intro z hz hpz
      have hz' := List.mem_filter.mp hz
      rcases List.mem_append.mp hz'.1 with h | h
      · exact habs z h hpz
      · have hz1 : z = ⟨fid1, eid, d⟩ := by simpa using h
        subst hz1
        simp at hz'
    have hbefore : db.attendance.any (attDbMatch eid d) = false := by
      rw [List.any_eq_false]
      exact habs
    simp only [hasAttendanceDb, hafter, hbefore]
  · -- present: the first call deletes the found row, the second reinserts
    have hmem : row ∈ db.attendance := List.mem_of_find?_eq_some hfind
    have hprow : attDbMatch eid d row = true := List.find?_some hfind
    have hnone : ∀ z ∈ db.attendance.filter (fun a => a.id ≠ row.id),
        ¬ (attDbMatch eid d z = true) := by
      intro z hz hpz
      have hz' := List.mem_filter.mp hz
      have hkeys : attDbKey z = attDbKey row := by
        rw [(attDbMatch_key eid d z).mp hpz, (attDbMatch_key eid d row).mp hprow]
      have := List.inj_on_of_nodup_map hr hz'.1 hmem hkeys
      subst this
      simp at hz'
    have hfind2 : (db.attendance.filter (fun a => a.id ≠ row.id)).find?
        (attDbMatch eid d) = none := by
      rw [List.find?_eq_none]
      intro z hz
      simpa using hnone z hz
    simp only [toggleAttendanceSupabase, hfind, hfind2]
    have hnew : attDbMatch eid d (⟨fid2, eid, d⟩ : AttendanceDbRow) = true := by
      simp [attDbMatch]
    have hbefore : db.attendance.any (attDbMatch eid d) = true := by
      rw [List.any_eq_true]
      exact ⟨row, hmem, by simpa using hprow⟩
    simp only [hasAttendanceDb, List.any_append, hbefore]
    simp [hnew]

/-- C6. `toggleAttendance(employeeId, date)` returns `true` iff an
    AttendanceRecord for the pair exists after the call, and toggling
    twice restores the original presence state — on both backends, for
    states with at most one live row per `(employeeId, date)` key (the
    invariant the unique constraint enforces remotely and scan-and-toggle
    maintains locally). -/
theorem toggleAttendance_correct (st : LocalState) (db : RemoteDb)
    (eid : String) (d : Int) (fid1 fid2 : String)
    (hl : (st.attendance.map attKey).Nodup)
    (hr : (db.attendance.map attDbKey).Nodup) :
    ((toggleAttendanceLocal st eid d fid1).2 = true
        ↔ hasAttendanceLocal (toggleAttendanceLocal st eid d fid1).1.attendance eid d = true)
    ∧ (hasAttendanceLocal
        ((toggleAttendanceLocal (toggleAttendanceLocal st eid d fid1).1 eid d fid2).1.attendance)
        eid d
        = hasAttendanceLocal st.attendance eid d)
    ∧ ((toggleAttendanceSupabase db eid d fid1).2 = true
        ↔ hasAttendanceDb (toggleAttendanceSupabase db eid d fid1).1.attendance eid d = true)
    ∧ (hasAttendanceDb
        ((toggleAttendanceSupabase (toggleAttendanceSupabase db eid d fid1).1 eid d fid2).1.attendance)
        eid d
        = hasAttendanceDb db.attendance eid d) :=
  ⟨toggleAttendanceLocal_iff st eid d fid1 hl,
   toggleAttendanceLocal_twice st eid d fid1 fid2 hl,
   toggleAttendanceSupabase_iff db eid d fid1 hr,
   toggleAttendanceSupabase_twice db eid d fid1 fid2 hr⟩

/-- Witness for C6 at a concrete input: a state holding one attendance row
    for `("e1", 5)`, toggled with fresh ids `"a2"`, `"a3"`. -/
theorem toggleAttendance_correct_witness :
    (toggleAttendanceLocal
        { emptyLocalState with attendance := [⟨"a1", "e1", 5⟩] } "e1" 5 "a2").2 = true
      ↔ hasAttendanceLocal
          (toggleAttendanceLocal
            { emptyLocalState with attendance := [⟨"a1", "e1", 5⟩] } "e1" 5 "a2").1.attendance
          "e1" 5 = true :=
  (toggleAttendance_correct
    { emptyLocalState with attendance := [⟨"a1", "e1", 5⟩] }
    emptyRemoteDb "e1" 5 "a2" "a3" (by decide) (by decide)).1

/-! ## Break-even (Analytics.jsx) -/

/-- `marginDecimal` of `breakEvenByStoreId`: converts a markup-on-cost
    percentage into a margin-on-price fraction,
    `markup >= 0 ? (markup / 100) / (1 + markup / 100) : 0`. -/
def marginDecimal (markup : ℚ) : ℚ :=
  if 0 ≤ markup then (markup / 100) / (1 + markup / 100) else 0

/-- The per-store body of the `breakEvenByStoreId` memo in
    `Analytics.jsx`: prorated fixed costs plus the daily rate of the
    employees linked to the store and classified `'main'`
    (`e.storeId === store.id && e.employeeType === 'main'`), divided by
    the margin fraction when it is positive, else `0`. -/
def breakEvenForStore (store : Store) (employees : List Employee) : ℚ :=
  let rent := store.monthlyRent
  let utility := store.monthlyUtilityBills
  let other := store.monthlyOtherExpenses
  let fixedDaily := (rent + utility + other) / 30
  let mainEmployeeDaily := (employees.filter
      (fun e => e.storeId = some store.id ∧ e.employeeType = some "main")).foldl
      (fun sum e => sum + e.salaryRate) 0
  let totalDailyExpenses := fixedDaily + mainEmployeeDaily
  let markup := store.markupPercentage
  let margin := marginDecimal markup
  if 0 < margin then totalDailyExpenses / margin else 0

/-- The whole `breakEvenByStoreId` map: `stores.forEach(store =>
    map.set(store.id, breakEven))`. -/
def breakEvenByStoreId (stores : List Store) (employees : List Employee) :
    List (String × ℚ) :=
  stores.foldl
    (fun m store =>
      replaceFirstOrPush (fun p => p.1 = store.id)
        (store.id, breakEvenForStore store employees) m)
    []

/-- C8. For every Store whose `markupPercentage` is `0`, the break-even
    computation reports `0` and the dividing branch is unreachable: the
    margin fraction is `0`, so the `marginDecimal > 0` guard fails and no
    division by the margin happens. -/
theorem breakEven_zero_markup (store : Store) (employees : List Employee)
    (h : store.markupPercentage = 0) :
    (marginDecimal store.markupPercentage = 0)
    ∧ ¬ (0 < marginDecimal store.markupPercentage)
    ∧ (breakEvenForStore store employees = 0) := by
  have hm : marginDecimal store.markupPercentage = 0 := by
    rw [h]
    simp [marginDecimal]
  refine ⟨hm, by rw [hm]; exact lt_irrefl 0, ?_⟩
  unfold breakEvenForStore
  rw [h]
  simp [marginDecimal]

/-- Witness for C8 at a concrete store with markup `0`. -/
theorem breakEven_zero_markup_witness :
    breakEvenForStore ⟨"s0", "S", "#333333", 3000, 600, 0, 0⟩ [] = 0 :=
  (breakEven_zero_markup ⟨"s0", "S", "#333333", 3000, 600, 0, 0⟩ [] rfl).2.2

/-! ## Employee listing -/

/-- Normalization applied by `getEmployeesLocal` to a raw stored row:
    exactly the four mapped fields; the `employeeType` property is not
    among them, so it is `undefined` (`none`) on every returned object. -/
def normalizeEmployee (e : EmployeeRow) : Employee :=
  ⟨e.id, e.name, e.salaryRate, e.storeId, none⟩

/-- JS `Map` construction/update (`new Map(pairs)` / `map.set`): one entry
    per key, updated in place when present, appended otherwise, insertion
    order preserved. -/
def mapSetEmp (m : List (String × Employee)) (k : String) (v : Employee) :
    List (String × Employee) :=
  replaceFirstOrPush (fun p => p.1 = k) (k, v) m

/-- `new Map(employees.map((e) => [e.id, e]))`. -/
def jsMapOfEmployees (l : List Employee) : List (String × Employee) :=
  l.foldl (fun m e => mapSetEmp m e.id e) []

/-- `byId.get(id)`. -/
def mapGetEmp (m : List (String × Employee)) (k : String) : Option Employee :=
  (m.find? (fun p => p.1 = k)).map (·.2)

/-- `byId.delete(id)`. -/
def mapDeleteEmp (m : List (String × Employee)) (k : String) :
    List (String × Employee) :=
  m.eraseP (fun p => p.1 = k)

/-- The `for (const id of order)` loop of `getEmployeesLocal`: pushes the
    employee found for each order id, deleting it from the map so that a
    duplicate order id is not pushed twice; returns the pushed list and
    the leftover map. -/
def pickLoop : List String → List (String × Employee) →
    List Employee × List (String × Employee)
  | [], m => ([], m)
  | id :: rest, m =>
      match mapGetEmp m id with
      | some emp =>
          let r := pickLoop rest (mapDeleteEmp m id)
          (emp :: r.1, r.2)
      | none => pickLoop rest m

/-- `getEmployeesLocal()`: normalizes the stored rows; with an empty order
    list, sorts them by name (`localeCompare` modelled as the string
    order); otherwise lists the employees whose ids appear in the order
    list first, in that order, then appends the remaining map values in
    insertion order. -/
def getEmployeesLocal (st : LocalState) : List Employee :=
  let employees := st.employees.map normalizeEmployee
  let order := st.employeeOrder
  if order = [] then
    employees.insertionSort (fun a b => a.name ≤ b.name)
  else
    let byId := jsMapOfEmployees employees
    let r := pickLoop order byId
    r.1 ++ r.2.map (·.2)

/-- The ordering used by the remote employees query
    (`order('display_order').order('name')`). -/
def empRowLE (a b : EmployeeDbRow) : Prop :=
  a.display_order < b.display_order
    ∨ (a.display_order = b.display_order ∧ a.name ≤ b.name)

instance : DecidableRel empRowLE := fun a b => by
  unfold empRowLE
  infer_instance

/-- `getEmployeesSupabase()`: rows sorted by `display_order` then `name`,
    normalized to the four mapped domain fields (again no
    `employeeType`). -/
def getEmployeesSupabase (db : RemoteDb) : List Employee :=
  (db.employees.insertionSort empRowLE).map
    (fun r => ⟨r.id, r.name, r.salary_rate, r.store_id, none⟩)

theorem mapSetEmp_mem (m : List (String × Employee)) (k : String)
    (v : Employee) (p : String × Employee) (hp : p ∈ mapSetEmp m k v) :
    p ∈ m ∨ p = (k, v) := by
  unfold mapSetEmp at hp
  induction m with
  | nil =>
      simp only [replaceFirstOrPush, List.mem_singleton] at hp
      exact Or.inr hp
  | cons y rest ih =>
      by_cases hy : (decide (y.1 = k)) = true
      · rw [show replaceFirstOrPush (fun p => p.1 = k) (k, v) (y :: rest)
            = (k, v) :: rest from by simp [replaceFirstOrPush, hy]] at hp
        rcases List.mem_cons.mp hp with h | h
        · exact Or.inr h
        · exact Or.inl (List.mem_cons_of_mem _ h)
      · rw [show replaceFirstOrPush (fun p => p.1 = k) (k, v) (y :: rest)
            = y :: replaceFirstOrPush (fun p => p.1 = k) (k, v) rest from by
          simp only [replaceFirstOrPush]
          rw [if_neg (by simpa using hy)]] at hp
        rcases List.mem_cons.mp hp with h | h
        · exact Or.inl (h ▸ List.mem_cons_self y rest)
        · rcases ih h with h' | h'
          · exact Or.inl (List.mem_cons_of_mem _ h')
          · exact Or.inr h'

theorem foldl_mapSetEmp_mem :
    ∀ (l : List Employee) (init : List (String × Employee)),
      ∀ p ∈ l.foldl (fun m e => mapSetEmp m e.id e) init, p.2 ∈ l ∨ p ∈ init := by
  intro l
  induction l with
  | nil =>
      intro init p hp
      exact Or.inr hp
  | cons e rest ih =>
      intro init p hp
      simp only [List.foldl_cons] at hp
      rcases ih (mapSetEmp init e.id e) p hp with h | h
      · exact Or.inl (List.mem_cons_of_mem _ h)
      · rcases mapSetEmp_mem init e.id e p h with h' | h'
        · exact Or.inr h'
        · exact Or.inl (by rw [h']; exact List.mem_cons_self e rest)

theorem jsMapOfEmployees_val_mem (l : List Employee) :
    ∀ p ∈ jsMapOfEmployees l, p.2 ∈ l := by
  intro p hp
  rcases foldl_mapSetEmp_mem l [] p hp with h | h
  · exact h
  · simp at h

theorem pickLoop_fst_mem :
    ∀ (order : List String) (m : List (String × Employee)),
      ∀ e ∈ (pickLoop order m).1, ∃ k, (k, e) ∈ m := by
  intro order
  induction order with
  | nil =>
      intro m e he
      rw [show pickLoop [] m = ([], m) from rfl] at he
      simp at he
  | cons id rest ih =>
      intro m e he
      rcases hget : mapGetEmp m id with _ | emp
      · rw [show pickLoop (id :: rest) m = pickLoop rest m from by
          simp [pickLoop, hget]] at he
        exact ih m e he
      · rw [show pickLoop (id :: rest) m
            = ((emp :: (pickLoop rest (mapDeleteEmp m id)).1),
               (pickLoop rest (mapDeleteEmp m id)).2) from by
          simp [pickLoop, hget]] at he
        rcases List.mem_cons.mp he with h | h
        · subst h
          unfold mapGetEmp at hget
          rcases hfind : m.find? (fun p => p.1 = id) with _ | pr
          · rw [hfind] at hget; simp at hget
          · rw [hfind] at hget
            obtain rfl : pr.2 = e := by simpa using hget
            exact ⟨pr.1, by simpa using List.mem_of_find?_eq_some hfind⟩
        · obtain ⟨k, hk⟩ := ih (mapDeleteEmp m id) e h
          exact ⟨k, (List.eraseP_sublist m).subset hk⟩

theorem pickLoop_snd_mem :
    ∀ (order : List String) (m : List (String × Employee)),
      ∀ p ∈ (pickLoop order m).2, p ∈ m := by
  intro order
  induction order with
  | nil =>
      intro m p hp
      simpa [pickLoop] using hp
  | cons id rest ih =>
      intro m p hp
      rcases hget : mapGetEmp m id with _ | emp
      · rw [show pickLoop (id :: rest) m = pickLoop rest m from by
          simp [pickLoop, hget]] at hp
        exact ih m p hp
      · rw [show pickLoop (id :: rest) m
            = ((emp :: (pickLoop rest (mapDeleteEmp m id)).1),
               (pickLoop rest (mapDeleteEmp m id)).2) from by
          simp [pickLoop, hget]] at hp
        exact (List.eraseP_sublist m).subset (ih (mapDeleteEmp m id) p hp)

/-- Every employee object the local backend returns lacks the
    `employeeType` property. -/
theorem getEmployeesLocal_employeeType (st : LocalState) :
    ∀ e ∈ getEmployeesLocal st, e.employeeType = none := by
  intro e he
  have hnorm : ∀ x ∈ st.employees.map normalizeEmployee,
      x.employeeType = none := by
    intro x hx
    obtain ⟨y, _, rfl⟩ := List.mem_map.mp hx
    rfl
  unfold getEmployeesLocal at he
  by_cases hord : st.employeeOrder = []
  · rw [if_pos hord] at he
    exact hnorm e ((List.perm_insertionSort _ _).mem_iff.mp he)
  · rw [if_neg hord] at he
    rcases List.mem_append.mp he with h | h
    · obtain ⟨k, hk⟩ := pickLoop_fst_mem st.employeeOrder _ e h
      exact hnorm e (jsMapOfEmployees_val_mem _ (k, e) hk)
    · obtain ⟨p, hp, rfl⟩ := List.mem_map.mp h
      exact hnorm p.2 (jsMapOfEmployees_val_mem _ p (pickLoop_snd_mem _ _ p hp))

/-- Every employee object the remote backend returns lacks the
    `employeeType` property. -/
theorem getEmployeesSupabase_employeeType (db : RemoteDb) :
    ∀ e ∈ getEmployeesSupabase db, e.employeeType = none := by
  intro e he
  obtain ⟨r, _, rfl⟩ := List.mem_map.mp he
  rfl

/-- Store A of the C2 scenario: rent 3000, utilities 600, other 0,
    markup 50%. -/
def storeA : Store := ⟨"sA", "Store A", "#333333", 3000, 600, 0, 50⟩

/-- The C2 scenario's remote database: one employee with salary rate 500
    linked to Store A. -/
def c2Db : RemoteDb :=
  { emptyRemoteDb with
    employees := [⟨"e1", "Juan", 500, 0, some "sA"⟩],
    stores := [⟨"sA", "Store A", "#333333", 0, 3000, 600, 0, 50⟩] }

/-- The C2 scenario's fallback state: the same employee and store. -/
def c2State : LocalState :=
  { emptyLocalState with
    employees := [⟨"e1", "Juan", 500, some "sA"⟩],
    employeeOrder := ["e1"],
    stores := [storeA],
    storeOrder := ["sA"] }

/-- C2 (failing evaluation). In the break-even scenario (rent 3000,
    utilities 600, other 0, markup 50%, one linked employee with salary
    rate 500) the code computes `(3600/30 + 0) / (1/3) = 360`, not
    ≈ 1860: the `e.employeeType === 'main'` filter matches no employee
    returned by `getEmployees` on either backend, because neither
    normalization (nor the schema, nor any save path) carries an
    `employeeType` field — the sum only becomes 500, and the result 1860,
    on an employee collection carrying `employeeType = 'main'`, which the
    facade never produces. -/
theorem breakEven_scenario_mismatch :
    (getEmployeesSupabase c2Db = [⟨"e1", "Juan", 500, some "sA", none⟩])
    ∧ (getEmployeesLocal c2State = [⟨"e1", "Juan", 500, some "sA", none⟩])
    ∧ (breakEvenForStore storeA [⟨"e1", "Juan", 500, some "sA", none⟩] = 360)
    ∧ (∀ db : RemoteDb, ∀ e ∈ getEmployeesSupabase db, e.employeeType = none)
    ∧ (∀ st : LocalState, ∀ e ∈ getEmployeesLocal st, e.employeeType = none)
    ∧ (breakEvenForStore storeA [⟨"e1", "Juan", 500, some "sA", some "main"⟩] = 1860)
    ∧ ((360 : ℚ) ≠ 1860) := by
  refine ⟨rfl, rfl, ?_, getEmployeesSupabase_employeeType,
    getEmployeesLocal_employeeType, ?_, by norm_num⟩
  · unfold breakEvenForStore marginDecimal storeA
    norm_num [List.filter,
      show (decide ((none : Option String) = some "main")) = false from rfl]
  · unfold breakEvenForStore marginDecimal storeA
    norm_num [List.filter,
      show (decide ((some "main" : Option String) = some "main")) = true from rfl]

/-- First occurrences of a list of ids, in order: the ids the
    `for (const id of order)` loop can act on (later duplicates are
    neutralized by the `byId.delete`). -/
def firstOccur : List String → List String
  | [] => []
  | x :: xs => x :: firstOccur (xs.filter (fun y => y ≠ x))
termination_by l => l.length
decreasing_by
  simp only [List.length_cons]
  exact Nat.lt_succ_of_le (List.length_filter_le _ xs)

theorem filter_comm' {α : Type} (p q : α → Bool) (l : List α) :
    (l.filter p).filter q = (l.filter q).filter p := by
  rw [List.filter_filter, List.filter_filter]
  apply List.filter_congr
  intro a _
  rw [Bool.and_comm]

theorem firstOccur_filter (p : String → Bool) :
    ∀ l : List String, firstOccur (l.filter p) = (firstOccur l).filter p
  | [] => by simp [firstOccur]
  | x :: xs => by
      by_cases hx : p x = true
      · rw [show (x :: xs).filter p = x :: xs.filter p from by simp [hx]]
        rw [firstOccur, firstOccur]
        rw [show List.filter p (x :: firstOccur (xs.filter (fun y => y ≠ x)))
            = x :: (firstOccur (xs.filter (fun y => y ≠ x))).filter p from by
          simp [hx]]
        congr 1
        rw [filter_comm' p (fun y => y ≠ x) xs]
        exact firstOccur_filter p (xs.filter (fun y => y ≠ x))
      · rw [show (x :: xs).filter p = xs.filter p from by simp [hx]]
        rw [firstOccur]
        rw [show List.filter p (x :: firstOccur (xs.filter (fun y => y ≠ x)))
            = (firstOccur (xs.filter (fun y => y ≠ x))).filter p from by
          simp [hx]]
        rw [← firstOccur_filter p (xs.filter (fun y => y ≠ x))]
        rw [filter_comm' (fun y => y ≠ x) p xs]
        congr 1
        symm
        rw [List.filter_eq_self]
        intro a ha
        have hpa : p a = true := List.of_mem_filter ha
        simp only [decide_eq_true_eq]
        intro hax
        rw [hax] at hpa
        exact absurd hpa (by simp [hx])
termination_by l => l.length
decreasing_by
  all_goals
    simp only [List.length_cons]
    exact Nat.lt_succ_of_le (List.length_filter_le _ xs)

theorem replaceFirstOrPush_of_forall_neg {α : Type} (p : α → Bool) (x : α) :
    ∀ l : List α, (∀ y ∈ l, ¬ p y = true) → replaceFirstOrPush p x l = l ++ [x] := by
  intro l
  induction l with
  | nil => intro _; rfl
  | cons y rest ih =>
      intro h
      rw [show replaceFirstOrPush p x (y :: rest)
          = y :: replaceFirstOrPush p x rest from by
        simp only [replaceFirstOrPush]
        rw [if_neg (h y (List.mem_cons_self y rest))]]
      rw [ih (fun z hz => h z (List.mem_cons_of_mem y hz))]
      rfl

theorem jsMapOfEmployees_eq (l : List Employee)
    (h : (l.map Employee.id).Nodup) :
    jsMapOfEmployees l = l.map (fun e => (e.id, e)) := by
  suffices hgen : ∀ (l : List Employee) (init : List (String × Employee)),
      ((init.map Prod.fst) ++ l.map Employee.id).Nodup →
      l.foldl (fun m e => mapSetEmp m e.id e) init = init ++ l.map (fun e => (e.id, e)) by
    have := hgen l [] (by simpa using h)
    simpa [jsMapOfEmployees] using this
  intro l
  induction l with
  | nil =>
      intro init _
      simp
  | cons e rest ih =>
      intro init hnd
      simp only [List.foldl_cons]
      have hkey : ∀ y ∈ init, ¬ (decide (y.1 = e.id)) = true := by
        intro y hy hdec
        have h1 : y.1 = e.id := by simpa using hdec
        rw [List.map_cons, List.nodup_append] at hnd
        exact hnd.2.2 (List.mem_map_of_mem Prod.fst hy)
          (by rw [h1]; exact List.mem_cons_self _ _)
      have hset : mapSetEmp init e.id e = init ++ [(e.id, e)] :=
        replaceFirstOrPush_of_forall_neg _ _ init hkey
      rw [hset]
      have hnd2 : (((init ++ [(e.id, e)]).map Prod.fst) ++ rest.map Employee.id).Nodup := by
        simpa [List.append_assoc] using hnd
      rw [ih (init ++ [(e.id, e)]) hnd2]
      simp

theorem mapGetEmp_mapped (l : List Employee) (k : String) :
    mapGetEmp (l.map (fun e => (e.id, e))) k = l.find? (fun e => e.id = k) := by
  induction l with
  | nil => rfl
  | cons e rest ih =>
      unfold mapGetEmp at ih ⊢
      rw [List.map_cons, List.find?_cons, List.find?_cons]
      by_cases he : (decide (e.id = k)) = true
      · simp only [he]
        rfl
      · simp only [Bool.not_eq_true] at he
        simp only [he]
        exact ih

theorem mapDeleteEmp_eq_filter (k : String) :
    ∀ m : List (String × Employee), (m.map Prod.fst).Nodup →
      mapDeleteEmp m k = m.filter (fun p => p.1 ≠ k) := by
  intro m
  induction m with
  | nil => intro _; rfl
  | cons y rest ih =>
      intro hnd
      simp only [List.map_cons, List.nodup_cons] at hnd
      by_cases hy : (decide (y.1 = k)) = true
      · have hyk : y.1 = k := by simpa using hy
        rw [show mapDeleteEmp (y :: rest) k = rest from by
          unfold mapDeleteEmp
          exact List.eraseP_cons_of_pos hy]
        rw [show (y :: rest).filter (fun p => p.1 ≠ k)
            = rest.filter (fun p => p.1 ≠ k) from by
          rw [List.filter_cons]
          simp [hyk]]
        symm
        rw [List.filter_eq_self]
        intro p hp
        simp only [decide_eq_true_eq]
        intro hpk
        exact hnd.1 (by rw [hyk, ← hpk]; exact List.mem_map_of_mem Prod.fst hp)
      · rw [show mapDeleteEmp (y :: rest) k = y :: mapDeleteEmp rest k from by
          unfold mapDeleteEmp
          exact List.eraseP_cons_of_neg (by simpa using hy)]
        rw [ih hnd.2]
        rw [List.filter_cons]
        rw [if_pos (by simpa using hy)]

theorem find?_filter_of_imp {α : Type} (p q : α → Bool)
    (h : ∀ y, p y = true → q y = true) :
    ∀ l : List α, (l.filter q).find? p = l.find? p := by
  intro l
  induction l with
  | nil => rfl
  | cons y rest ih =>
      by_cases hq : q y = true
      · rw [show (y :: rest).filter q = y :: rest.filter q from by simp [hq]]
        rw [List.find?_cons, List.find?_cons]
        by_cases hp : p y = true
        · simp [hp]
        · simp only [Bool.not_eq_true] at hp
          simp only [hp]
          exact ih
      · rw [show (y :: rest).filter q = rest.filter q from by
          rw [List.filter_cons, if_neg hq]]
        rw [List.find?_cons]
        have hp : p y = false := by
          by_contra hc
          simp only [Bool.not_eq_false] at hc
          exact hq (h y hc)
        simp only [hp]
        exact ih

theorem mapGetEmp_delete (m : List (String × Employee)) (k k2 : String)
    (hnd : (m.map Prod.fst).Nodup) :
    mapGetEmp (mapDeleteEmp m k) k2
      = if k2 = k then none else mapGetEmp m k2 := by
  rw [mapDeleteEmp_eq_filter k m hnd]
  by_cases hk : k2 = k
  · rw [if_pos hk]
    unfold mapGetEmp
    rw [show (m.filter (fun p => p.1 ≠ k)).find? (fun p => p.1 = k2) = none from by
      rw [List.find?_eq_none]
      intro p hp
      have h1 : ¬ p.1 = k := by simpa using List.of_mem_filter hp
      simp [hk, h1]]
    rfl
  · rw [if_neg hk]
    unfold mapGetEmp
    rw [find?_filter_of_imp _ _ ?_ m]
    intro y hy
    have h1 : y.1 = k2 := by simpa using hy
    simp only [decide_eq_true_eq]
    rw [h1]
    exact hk

theorem filterMap_of_none {α β : Type} [DecidableEq α] (g : α → Option β)
    (k : α) (hg : g k = none) :
    ∀ l : List α, l.filterMap g = (l.filter (fun y => y ≠ k)).filterMap g := by
  intro l
  induction l with
  | nil => rfl
  | cons y rest ih =>
      by_cases hy : y = k
      · subst hy
        rw [show (y :: rest).filter (fun z => z ≠ y) = rest.filter (fun z => z ≠ y) from by
          rw [List.filter_cons]
          simp]
        rw [List.filterMap_cons, hg]
        exact ih
      · rw [show (y :: rest).filter (fun z => z ≠ k)
            = y :: rest.filter (fun z => z ≠ k) from by
          rw [List.filter_cons, if_pos (by simpa using hy)]]
        rw [List.filterMap_cons, List.filterMap_cons]
        cases g y with
        | none => exact ih
        | some b => rw [ih]

theorem filterMap_get_delete (m : List (String × Employee)) (id : String)
    (hnd : (m.map Prod.fst).Nodup) :
    ∀ L : List String,
      L.filterMap (fun k => mapGetEmp (mapDeleteEmp m id) k)
        = (L.filter (fun y => y ≠ id)).filterMap (fun k => mapGetEmp m k) := by
  intro L
  induction L with
  | nil => rfl
  | cons y rest ih =>
      by_cases hy : y = id
      · subst hy
        rw [show (y :: rest).filter (fun z => z ≠ y) = rest.filter (fun z => z ≠ y) from by
          rw [List.filter_cons]
          simp]
        rw [List.filterMap_cons]
        rw [show mapGetEmp (mapDeleteEmp m y) y = none from by
          rw [mapGetEmp_delete m y y hnd]
          simp]
        exact ih
      · rw [show (y :: rest).filter (fun z => z ≠ id)
            = y :: rest.filter (fun z => z ≠ id) from by
          rw [List.filter_cons, if_pos (by simpa using hy)]]
        rw [List.filterMap_cons, List.filterMap_cons]
        rw [show mapGetEmp (mapDeleteEmp m id) y = mapGetEmp m y from by
          rw [mapGetEmp_delete m id y hnd, if_neg hy]]
        cases mapGetEmp m y with
        | none => exact ih
        | some b => rw [ih]

theorem pickLoop_spec :
    ∀ (order : List String) (m : List (String × Employee)),
      (m.map Prod.fst).Nodup →
      ((pickLoop order m).1
          = (firstOccur order).filterMap (fun id => mapGetEmp m id))
      ∧ ((pickLoop order m).2 = m.filter (fun p => !(order.elem p.1))) := by
  intro order
  induction order with
  | nil =>
      intro m _
      constructor
      · rw [show pickLoop [] m = ([], m) from rfl]
        rw [show firstOccur [] = [] from by rw [firstOccur]]
        rfl
      · rw [show pickLoop [] m = ([], m) from rfl]
        symm
        rw [List.filter_eq_self]
        intro p _
        simp
  | cons id rest ih =>
      intro m hnd
      rcases hget : mapGetEmp m id with _ | emp
      · have hnokey : ∀ p ∈ m, p.1 ≠ id := by
          intro p hp
          unfold mapGetEmp at hget
          rcases hfind : m.find? (fun q => q.1 = id) with _ | pr
          · have := List.find?_eq_none.mp hfind p hp
            simpa using this
          · rw [hfind] at hget
            simp at hget
        rw [show pickLoop (id :: rest) m = pickLoop rest m from by
          simp [pickLoop, hget]]
        obtain ⟨ih1, ih2⟩ := ih m hnd
        constructor
        · rw [ih1, firstOccur]
          rw [List.filterMap_cons, hget]
          rw [firstOccur_filter (fun y => y ≠ id) rest]
          exact filterMap_of_none _ id hget (firstOccur rest)
        · rw [ih2]
          apply List.filter_congr
          intro p hp
          have hne : p.1 ≠ id := hnokey p hp
          simp [List.elem_eq_mem, List.mem_cons, hne]
      · have hm' : ((mapDeleteEmp m id).map Prod.fst).Nodup :=
          ((List.eraseP_sublist m).map Prod.fst).nodup hnd
        obtain ⟨ih1, ih2⟩ := ih (mapDeleteEmp m id) hm'
        rw [show pickLoop (id :: rest) m
            = ((emp :: (pickLoop rest (mapDeleteEmp m id)).1),
               (pickLoop rest (mapDeleteEmp m id)).2) from by
          simp [pickLoop, hget]]
        constructor
        · rw [show ((emp :: (pickLoop rest (mapDeleteEmp m id)).1,
              (pickLoop rest (mapDeleteEmp m id)).2)).1
              = emp :: (pickLoop rest (mapDeleteEmp m id)).1 from rfl]
          rw [ih1, firstOccur]
          rw [List.filterMap_cons, hget]
          rw [firstOccur_filter (fun y => y ≠ id) rest]
          rw [← filterMap_get_delete m id hnd (firstOccur rest)]
        · rw [show ((emp :: (pickLoop rest (mapDeleteEmp m id)).1,
              (pickLoop rest (mapDeleteEmp m id)).2)).2
              = (pickLoop rest (mapDeleteEmp m id)).2 from rfl]
          rw [ih2, mapDeleteEmp_eq_filter id m hnd]
          rw [List.filter_filter]
          apply List.filter_congr
          intro p _
          by_cases h1 : p.1 = id
          · simp [List.elem_eq_mem, List.mem_cons, h1]
          · by_cases h2 : p.1 ∈ rest
            · simp [List.elem_eq_mem, List.mem_cons, h1, h2]
            · simp [List.elem_eq_mem, List.mem_cons, h1, h2]

theorem mem_firstOccur : ∀ (l : List String) (a : String),
    a ∈ firstOccur l ↔ a ∈ l
  | [] => fun a => by rw [firstOccur]
  | x :: xs => fun a => by
      rw [firstOccur]
      rw [List.mem_cons, List.mem_cons]
      rw [mem_firstOccur (xs.filter (fun y => y ≠ x)) a]
      rw [List.mem_filter]
      by_cases hax : a = x
      · simp [hax]
      · simp [hax]
termination_by l => l.length
decreasing_by
  simp only [List.length_cons]
  exact Nat.lt_succ_of_le (List.length_filter_le _ xs)

theorem firstOccur_nodup : ∀ l : List String, (firstOccur l).Nodup
  | [] => by
      rw [show firstOccur [] = [] from by rw [firstOccur]]
      exact List.nodup_nil
  | x :: xs => by
      rw [firstOccur]
      rw [List.nodup_cons]
      refine ⟨?_, firstOccur_nodup (xs.filter (fun y => y ≠ x))⟩
      intro hx
      have hmem := (mem_firstOccur _ x).mp hx
      have := List.of_mem_filter hmem
      simp at this
termination_by l => l.length
decreasing_by
  all_goals
    simp only [List.length_cons]
    exact Nat.lt_succ_of_le (List.length_filter_le _ xs)

theorem find?_id_unique (l : List Employee) (e : Employee)
    (hnd : (l.map Employee.id).Nodup) (he : e ∈ l) :
    l.find? (fun x => x.id = e.id) = some e := by
  induction l with
  | nil => cases he
  | cons y rest ih =>
      rw [List.map_cons, List.nodup_cons] at hnd
      rw [List.find?_cons]
      by_cases hy : (decide (y.id = e.id)) = true
      · have hid : y.id = e.id := by simpa using hy
        rcases List.mem_cons.mp he with h | h
        · rw [hy, h]
        · exact absurd (by rw [hid]; exact List.mem_map_of_mem Employee.id h) hnd.1
      · simp only [Bool.not_eq_true] at hy
        rw [hy]
        rcases List.mem_cons.mp he with h | h
        · subst h
          simp at hy
        · exact ih hnd.2 h

/-- C10. In the fallback backend, `getEmployees` returns each stored
    employee exactly once — no duplication and no loss, even when the
    order list holds duplicate or stale ids: the result is a permutation
    of the normalized stored rows; with an empty order list it is sorted
    by name; otherwise the employees whose ids appear in the order list
    come first, in order of their ids' first occurrences there, with the
    employees absent from the order list appended after them in stored
    order. -/
theorem getEmployeesLocal_correct (st : LocalState)
    (h : (st.employees.map EmployeeRow.id).Nodup) :
    ((getEmployeesLocal st).Perm (st.employees.map normalizeEmployee))
    ∧ (st.employeeOrder = [] →
        (getEmployeesLocal st).Sorted (fun a b => a.name ≤ b.name))
    ∧ (st.employeeOrder ≠ [] →
        getEmployeesLocal st
          = ((firstOccur st.employeeOrder).filterMap
              (fun oid => (st.employees.map normalizeEmployee).find?
                (fun e => e.id = oid)))
            ++ ((st.employees.map normalizeEmployee).filter
              (fun e => !(st.employeeOrder.elem e.id)))) := by
  have hids : ((st.employees.map normalizeEmployee).map Employee.id).Nodup := by
    rw [List.map_map]
    exact h
  by_cases hord : st.employeeOrder = []
  · have hsortdef : getEmployeesLocal st
        = (st.employees.map normalizeEmployee).insertionSort
            (fun a b => a.name ≤ b.name) := by
      unfold getEmployeesLocal
      rw [if_pos hord]
    refine ⟨?_, ?_, ?_⟩
    · rw [hsortdef]
      exact List.perm_insertionSort _ _
    · intro _
      rw [hsortdef]
      haveI : IsTotal Employee (fun a b => a.name ≤ b.name) :=
        ⟨fun a b => le_total a.name b.name⟩
      haveI : IsTrans Employee (fun a b => a.name ≤ b.name) :=
        ⟨fun _ _ _ h1 h2 => le_trans h1 h2⟩
      exact List.sorted_insertionSort _ _
    · intro hcon
      exact absurd hord hcon
  · have hmap : jsMapOfEmployees (st.employees.map normalizeEmployee)
        = (st.employees.map normalizeEmployee).map (fun e => (e.id, e)) :=
      jsMapOfEmployees_eq _ hids
    have hkeys : (((st.employees.map normalizeEmployee).map
        (fun e => (e.id, e))).map Prod.fst).Nodup := by
      rw [List.map_map]
      exact hids
    obtain ⟨hs1, hs2⟩ := pickLoop_spec st.employeeOrder
      ((st.employees.map normalizeEmployee).map (fun e => (e.id, e))) hkeys
    have hdef : getEmployeesLocal st
        = (pickLoop st.employeeOrder
            ((st.employees.map normalizeEmployee).map (fun e => (e.id, e)))).1
          ++ (pickLoop st.employeeOrder
            ((st.employees.map normalizeEmployee).map (fun e => (e.id, e)))).2.map (·.2) := by
      unfold getEmployeesLocal
      rw [if_neg hord, hmap]
    have hA : (pickLoop st.employeeOrder
        ((st.employees.map normalizeEmployee).map (fun e => (e.id, e)))).1
        = (firstOccur st.employeeOrder).filterMap
            (fun oid => (st.employees.map normalizeEmployee).find?
              (fun e => e.id = oid)) := by
      rw [hs1]
      have hfun : (fun oid => mapGetEmp
          ((st.employees.map normalizeEmployee).map (fun e => (e.id, e))) oid)
          = (fun oid => (st.employees.map normalizeEmployee).find?
              (fun e => e.id = oid)) :=
        funext (fun k => mapGetEmp_mapped _ k)
      rw [hfun]
    have hB : (pickLoop st.employeeOrder
        ((st.employees.map normalizeEmployee).map (fun e => (e.id, e)))).2.map (·.2)
        = (st.employees.map normalizeEmployee).filter
            (fun e => !(st.employeeOrder.elem e.id)) := by
      rw [hs2]
      rw [List.filter_map, List.map_map]
      have hcompmap : ((fun (x : String × Employee) => x.2)
          ∘ (fun (e : Employee) => (e.id, e))) = id := rfl
      have hcompfil : ((fun (p : String × Employee) => !(st.employeeOrder.elem p.1))
          ∘ (fun (e : Employee) => (e.id, e)))
          = (fun (e : Employee) => !(st.employeeOrder.elem e.id)) := rfl
      rw [hcompmap, hcompfil, List.map_id]
    refine ⟨?_, fun hcon => absurd hcon hord, fun _ => by rw [hdef, hA, hB]⟩
    rw [hdef, hA, hB]
    have hAnodup : ((firstOccur st.employeeOrder).filterMap
        (fun oid => (st.employees.map normalizeEmployee).find?
          (fun e => e.id = oid))).Nodup := by
      refine List.Nodup.filterMap ?_ (firstOccur_nodup st.employeeOrder)
      intro a a' b hb hb'
      have h1 : b.id = a := by simpa using List.find?_some hb
      have h2 : b.id = a' := by simpa using List.find?_some hb'
      rw [← h1, h2]
    have hempsnodup : (st.employees.map normalizeEmployee).Nodup :=
      List.Nodup.of_map Employee.id hids
    have hAperm : ((firstOccur st.employeeOrder).filterMap
        (fun oid => (st.employees.map normalizeEmployee).find?
          (fun e => e.id = oid))).Perm
        ((st.employees.map normalizeEmployee).filter
          (fun e => st.employeeOrder.elem e.id)) := by
      rw [List.perm_ext_iff_of_nodup hAnodup (hempsnodup.filter _)]
      intro x
      rw [List.mem_filterMap, List.mem_filter]
      constructor
      · rintro ⟨oid, hoid, hfind⟩
        have hx : x.id = oid := by simpa using List.find?_some hfind
        have hxmem : x ∈ st.employees.map normalizeEmployee :=
          List.mem_of_find?_eq_some hfind
        refine ⟨hxmem, ?_⟩
        have : oid ∈ st.employeeOrder := (mem_firstOccur _ oid).mp hoid
        rw [List.elem_eq_mem]
        simpa [hx] using this
      · rintro ⟨hxmem, hxelem⟩
        refine ⟨x.id, ?_, ?_⟩
        · rw [mem_firstOccur]
          rw [List.elem_eq_mem] at hxelem
          simpa using hxelem
        · exact find?_id_unique _ x hids hxmem
    exact List.Perm.trans (hAperm.append (List.Perm.refl _))
      (List.filter_append_perm _ _)

/-- Witness for C10 at a concrete input: two stored employees, an order
    list with a stale id and a duplicate. -/
theorem getEmployeesLocal_correct_witness :
    (getEmployeesLocal
      { emptyLocalState with
        employees := [⟨"e2", "Bob", 1, none⟩, ⟨"e1", "Ann", 2, none⟩],
        employeeOrder := ["zz", "e1", "e1"] }).Perm
      [⟨"e2", "Bob", 1, none, none⟩, ⟨"e1", "Ann", 2, none, none⟩] :=
  (getEmployeesLocal_correct
    { emptyLocalState with
      employees := [⟨"e2", "Bob", 1, none⟩, ⟨"e1", "Ann", 2, none⟩],
      employeeOrder := ["zz", "e1", "e1"] }
    (by decide)).1

/-! ## Remaining remote reads and writes (for the read-cache model) -/

/-- The normalized result of `getStoreMonthlyExpensesSupabase` when a row
    exists. -/
structure MonthlyVal where
  monthlyRent             : ℚ
  monthlyUtilityBills     : ℚ
  monthlyEmployeeSalaries : ℚ
  monthlyOtherExpenses    : ℚ
  deriving Repr, DecidableEq

/-- `getSalesSupabase()`: all rows ordered by `date` descending,
    normalized. -/
def getSalesSupabase (db : RemoteDb) : List Sale :=
  (db.sales.insertionSort (fun a b => b.date ≤ a.date)).map
    (fun r => ⟨some r.id, r.item_id, r.item_name, r.quantity, r.price,
               r.total, r.customer_name, r.date⟩)

/-- `getAttendanceForWeekSupabase(startDate, endDate)`. -/
def getAttendanceForWeekSupabase (db : RemoteDb) (startDate endDate : Int) :
    List AttendancePair :=
  (db.attendance.filter (fun a => startDate ≤ a.date ∧ a.date ≤ endDate)).map
    (fun a => ⟨a.employee_id, a.date⟩)

/-- `getWeeklyPaymentsForWeekSupabase(weekStartStr)`: rows with that
    `week_start`, as `{ employeeId, paid }` pairs. -/
def getWeeklyPaymentsForWeekSupabase (db : RemoteDb) (weekStart : Int) :
    List (String × Bool) :=
  (db.weekly_payments.filter (fun p => p.week_start = weekStart)).map
    (fun p => (p.employee_id, p.paid))

/-- `getDeductionsForWeekSupabase(weekStartStr)`. -/
def getDeductionsForWeekSupabase (db : RemoteDb) (weekStart : Int) :
    List (String × ℚ) :=
  (db.weekly_deductions.filter (fun d => d.weekStart = weekStart)).map
    (fun d => (d.employeeId, d.amount))

/-- The ordering of the remote stores query
    (`order('display_order').order('name')`). -/
def storeRowLE (a b : StoreDbRow) : Prop :=
  a.display_order < b.display_order
    ∨ (a.display_order = b.display_order ∧ a.name ≤ b.name)

instance : DecidableRel storeRowLE := fun a b => by
  unfold storeRowLE
  infer_instance

/-- `getStoresSupabase()`. -/
def getStoresSupabase (db : RemoteDb) : List Store :=
  (db.stores.insertionSort storeRowLE).map
    (fun r => ⟨r.id, r.name, r.color, r.monthly_rent, r.monthly_utility_bills,
               r.monthly_other_expenses, r.markup_percentage⟩)

/-- `getStoreMonthlyExpensesSupabase(storeId, yearMonth)`: `maybeSingle`
    row for the pair, or `null`. -/
def getStoreMonthlyExpensesSupabase (db : RemoteDb) (storeId yearMonth : String) :
    Option MonthlyVal :=
  (db.store_monthly_expenses.find?
      (fun r => r.store_id = storeId ∧ r.year_month = yearMonth)).map
    (fun r => ⟨r.monthly_rent, r.monthly_utility_bills,
               r.monthly_employee_salaries, r.monthly_other_expenses⟩)

/-- `deleteInventoryItemSupabase(id)`; `sales.item_id` references
    inventory `on delete set null`. -/
def deleteInventoryItemSupabase (db : RemoteDb) (id : String) : RemoteDb :=
  { db with
    inventory := db.inventory.filter (fun r => r.id ≠ id),
    sales := db.sales.map (fun s =>
      if s.item_id = some id then { s with item_id := none } else s) }

/-- `recordSaleSupabase(sale)`: inserts the sale row (backend id modelled
    by `newId`), then decrements the sold item's quantity when the item
    still exists. -/
def recordSaleSupabase (db : RemoteDb) (sale : Sale) (newId : String) : RemoteDb :=
  let row : SaleRow := ⟨newId, sale.itemId, sale.itemName, sale.quantity,
    sale.price, sale.total, sale.customerName, sale.date⟩
  { db with
    sales := db.sales ++ [row],
    inventory := db.inventory.map (fun r =>
      if some r.id = sale.itemId then { r with quantity := r.quantity - sale.quantity }
      else r) }

/-- The employee object the UI passes to `saveEmployee`. -/
structure EmployeeInput where
  id         : Option String
  name       : String
  salaryRate : ℚ
  storeId    : Option String
  deriving Repr, DecidableEq

/-- `saveEmployeeSupabase(employee)`: update when an id is present;
    otherwise insert with `display_order` one past the current maximum
    (`(maxRow?.display_order ?? -1) + 1`). -/
def saveEmployeeSupabase (db : RemoteDb) (employee : EmployeeInput)
    (newId : String) : RemoteDb :=
  match employee.id with
  | some iid =>
      { db with employees := db.employees.map (fun r =>
          if r.id = iid then
            { r with name := employee.name, salary_rate := employee.salaryRate,
                     store_id := employee.storeId }
          else r) }
  | none =>
      let ord := ((db.employees.map EmployeeDbRow.display_order).max?.getD (-1)) + 1
      { db with employees := db.employees ++
          [⟨newId, employee.name, employee.salaryRate, ord, employee.storeId⟩] }

/-- `deleteEmployeeSupabase(id)`; attendance, weekly payments and weekly
    deductions reference employees `on delete cascade`. -/
def deleteEmployeeSupabase (db : RemoteDb) (id : String) : RemoteDb :=
  { db with
    employees := db.employees.filter (fun r => r.id ≠ id),
    attendance := db.attendance.filter (fun a => a.employee_id ≠ id),
    weekly_payments := db.weekly_payments.filter (fun p => p.employee_id ≠ id),
    weekly_deductions := db.weekly_deductions.filter (fun d => d.employeeId ≠ id) }

/-- `updateEmployeeOrderSupabase(orderedEmployeeIds)`: one update per
    position, setting `display_order := i` for the employee at index `i`. -/
def updateEmployeeOrderSupabase (db : RemoteDb) (ids : List String) : RemoteDb :=
  let employees := ids.enum.foldl
    (fun emps p => emps.map (fun r =>
      if r.id = p.2 then { r with display_order := (p.1 : Int) } else r))
    db.employees
  { db with employees := employees }

/-- `setWeeklyPaidSupabase(employeeId, weekStartStr, paid)`: upsert on
    `unique(employee_id, week_start)`. -/
def setWeeklyPaidSupabase (db : RemoteDb) (employeeId : String)
    (weekStart : Int) (paid : Bool) : RemoteDb :=
  let table := replaceFirstOrPush
    (fun p => p.employee_id = employeeId ∧ p.week_start = weekStart)
    (⟨employeeId, weekStart, paid⟩ : PaymentDbRow) db.weekly_payments
  { db with weekly_payments := table }

/-- `saveDeductionSupabase(employeeId, weekStartStr, amount)`: upsert on
    `unique(employee_id, week_start)`. -/
def saveDeductionSupabase (db : RemoteDb) (employeeId : String)
    (weekStart : Int) (amount : ℚ) : RemoteDb :=
  let table := replaceFirstOrPush
    (fun d => d.employeeId = employeeId ∧ d.weekStart = weekStart)
    (⟨employeeId, weekStart, amount⟩ : WeeklyDeduction) db.weekly_deductions
  { db with weekly_deductions := table }

/-- The store object the UI passes to `saveStore`. -/
structure StoreInput where
  id                   : Option String
  name                 : String
  color                : String
  monthlyRent          : ℚ
  monthlyUtilityBills  : ℚ
  monthlyOtherExpenses : ℚ
  markupPercentage     : ℚ
  linkedEmployeeIds    : Option (List String)
  deriving Repr, DecidableEq

/-- `saveStoreSupabase(store)`: update when an id is present — in that
    case, when `linkedEmployeeIds` is an array, first null out
    `store_id` on the store's current employees, then set it on the
    listed ones (when the list is non-empty); insert with
    `display_order` one past the maximum otherwise. -/
def saveStoreSupabase (db : RemoteDb) (store : StoreInput)
    (newId : String) : RemoteDb :=
  match store.id with
  | some sid =>
      let stores := db.stores.map (fun r =>
        if r.id = sid then
          { r with name := store.name, color := store.color,
                   monthly_rent := store.monthlyRent,
                   monthly_utility_bills := store.monthlyUtilityBills,
                   monthly_other_expenses := store.monthlyOtherExpenses,
                   markup_percentage := store.markupPercentage }
        else r)
      let employees :=
        match store.linkedEmployeeIds with
        | some linked =>
            let cleared := db.employees.map (fun r =>
              if r.store_id = some sid then { r with store_id := none } else r)
            if linked.length > 0 then
              cleared.map (fun r =>
                if linked.contains r.id then { r with store_id := some sid } else r)
            else cleared
        | none => db.employees
      { db with stores := stores, employees := employees }
  | none =>
      let ord := ((db.stores.map StoreDbRow.display_order).max?.getD (-1)) + 1
      { db with stores := db.stores ++
          [⟨newId, store.name, store.color, ord, store.monthlyRent,
            store.monthlyUtilityBills, store.monthlyOtherExpenses,
            store.markupPercentage⟩] }

/-- `deleteStoreSupabase(id)`; `store_daily_sales` and
    `store_monthly_expenses` cascade, `employees.store_id` is set null. -/
def deleteStoreSupabase (db : RemoteDb) (id : String) : RemoteDb :=
  { db with
    stores := db.stores.filter (fun r => r.id ≠ id),
    store_daily_sales := db.store_daily_sales.filter (fun r => r.store_id ≠ id),
    store_monthly_expenses :=
      db.store_monthly_expenses.filter (fun r => r.store_id ≠ id),
    employees := db.employees.map (fun r =>
      if r.store_id = some id then { r with store_id := none } else r) }

/-- `saveStoreMonthlyExpensesSupabase(storeId, yearMonth, expenses)`:
    upsert on `(store_id, year_month)`. -/
def saveStoreMonthlyExpensesSupabase (db : RemoteDb) (storeId yearMonth : String)
    (expenses : MonthlyVal) : RemoteDb :=
  let table := replaceFirstOrPush
    (fun r => r.store_id = storeId ∧ r.year_month = yearMonth)
    (⟨storeId, yearMonth, expenses.monthlyRent, expenses.monthlyUtilityBills,
      expenses.monthlyEmployeeSalaries, expenses.monthlyOtherExpenses⟩ : SmeDbRow)
    db.store_monthly_expenses
  { db with store_monthly_expenses := table }

/-! ## The read cache

`cache` is a JS `Map` from key strings to `{ data, ts }` entries; we model
it as a list of entries with unique keys (maintained by `Map.set`
semantics).  `Date.now()` timestamps are explicit `now` arguments.  A JS
value that may be `null` is represented inside `FetchVal` by `jsNull`
(`cachedRead` treats a cached `null` the same as a miss, since
`cacheGet` returns `null` for both). -/

/-- The value of one logical query, as stored in the cache. -/
inductive FetchVal where
  | inv (l : List InventoryItem)
  | sales (l : List Sale)
  | emps (l : List Employee)
  | att (l : List AttendancePair)
  | pays (l : List (String × Bool))
  | deds (l : List (String × ℚ))
  | dedsRange (l : List (String × ℚ))
  | stores (l : List Store)
  | storeSales (l : List StoreDailySale)
  | monthly (v : MonthlyVal)
  | jsNull
  deriving Repr, DecidableEq

/-- A cache entry `{ data, ts }` under its key. -/
structure CacheEntry where
  key  : String
  data : FetchVal
  ts   : Int
  deriving Repr, DecidableEq

/-- `CACHE_TTL_MS = 2 * 60 * 1000`. -/
def CACHE_TTL_MS : Int := 2 * 60 * 1000

/-- `cacheGet(key)`: `null` for a missing entry; an entry older than the
    TTL is deleted and yields `null`; otherwise the stored data.  Returns
    the (possibly evicted) cache alongside. -/
def cacheGet (now : Int) (c : List CacheEntry) (key : String) :
    Option FetchVal × List CacheEntry :=
  match c.find? (fun e => e.key = key) with
  | none => (none, c)
  | some entry =>
      if CACHE_TTL_MS < now - entry.ts then
        (none, c.eraseP (fun e => e.key = key))
      else
        (some entry.data, c)

/-- `cacheSet(key, data)`: `Map.set` — replace the entry under `key`, or
    append a new one. -/
def cacheSet (now : Int) (c : List CacheEntry) (key : String)
    (data : FetchVal) : List CacheEntry :=
  replaceFirstOrPush (fun e => e.key = key) ⟨key, data, now⟩ c

/-- JS `String.prototype.startsWith`. -/
def jsStartsWith (s pre : String) : Bool :=
  pre.data.isPrefixOf s.data

/-- `cacheInvalidate(keyOrPrefix)`: when the argument is an exact key of
    the map, delete just that entry and return; otherwise delete every
    entry whose key starts with the argument. -/
def cacheInvalidate (c : List CacheEntry) (keyOrPre : String) : List CacheEntry :=
  if c.any (fun e => e.key = keyOrPre) then
    c.eraseP (fun e => e.key = keyOrPre)
  else
    c.filter (fun e => !(jsStartsWith e.key keyOrPre))

/-- `cachedRead(key, fetchFn)`: return the cached value when present,
    unexpired and not `null`; otherwise fetch (`fetched` is the fetcher's
    result on the current remote state), store it and return it. -/
def cachedRead (now : Int) (c : List CacheEntry) (key : String)
    (fetched : FetchVal) : FetchVal × List CacheEntry :=
  let r := cacheGet now c key
  match r.1 with
  | some hit =>
      if hit = FetchVal.jsNull then (fetched, cacheSet now r.2 key fetched)
      else (hit, r.2)
  | none => (fetched, cacheSet now r.2 key fetched)

/-! ## The facade's reads and writes (remote branch) -/

/-- One cached read of the public API, with its parameters. -/
inductive ReadOp where
  | inventory
  | sales
  | employees
  | attendance (s e : Int)
  | weeklyPayments (w : Int)
  | deductionsWeek (w : Int)
  | deductionsRange (s e : Int)
  | stores
  | storeSales (s e : Int)
  | monthlyExpenses (sid ym : String)
  deriving Repr, DecidableEq

/-- The cache key each read uses (template literals of `database.js`). -/
def readKey : ReadOp → String
  | .inventory => "inventory"
  | .sales => "sales"
  | .employees => "employees"
  | .attendance s e => "attendance:" ++ (toString s ++ ":" ++ toString e)
  | .weeklyPayments w => "weeklyPayments:" ++ toString w
  | .deductionsWeek w => "deductions:" ++ toString w
  | .deductionsRange s e => "deductionsRange:" ++ (toString s ++ ":" ++ toString e)
  | .stores => "stores"
  | .storeSales s e => "storeSales:" ++ (toString s ++ ":" ++ toString e)
  | .monthlyExpenses sid ym => "storeMonthlyExpenses:" ++ (sid ++ ":" ++ ym)

/-- The fetcher each read passes to `cachedRead`, evaluated on a remote
    state. -/
def fetch : ReadOp → RemoteDb → FetchVal
  | .inventory, db => .inv (getInventorySupabase db)
  | .sales, db => .sales (getSalesSupabase db)
  | .employees, db => .emps (getEmployeesSupabase db)
  | .attendance s e, db => .att (getAttendanceForWeekSupabase db s e)
  | .weeklyPayments w, db => .pays (getWeeklyPaymentsForWeekSupabase db w)
  | .deductionsWeek w, db => .deds (getDeductionsForWeekSupabase db w)
  | .deductionsRange s e, db =>
      .dedsRange (getDeductionsForDateRangeSupabase db.weekly_deductions s e)
  | .stores, db => .stores (getStoresSupabase db)
  | .storeSales s e, db => .storeSales (getStoreSalesForWeekSupabase db s e)
  | .monthlyExpenses sid ym, db =>
      match getStoreMonthlyExpensesSupabase db sid ym with
      | some v => .monthly v
      | none => .jsNull

/-- One write of the public API, with its parameters (backend-generated
    ids passed explicitly). -/
inductive WriteOp where
  | saveInventoryItem (item : InventoryItem) (newId : String)
  | deleteInventoryItem (id : String)
  | recordSale (sale : Sale) (newId : String)
  | saveEmployee (e : EmployeeInput) (newId : String)
  | deleteEmployee (id : String)
  | updateEmployeeOrder (ids : List String)
  | toggleAttendance (eid : String) (d : Int) (newId : String)
  | setWeeklyPaid (eid : String) (w : Int) (paid : Bool)
  | saveDeduction (eid : String) (w : Int) (amount : ℚ)
  | saveStore (store : StoreInput) (newId : String)
  | deleteStore (id : String)
  | saveStoreDailySale (sid : String) (d : Int) (amount : ℚ)
  | saveStoreMonthlyExpenses (sid ym : String) (v : MonthlyVal)
  deriving Repr, DecidableEq

/-- The remote-state transformation of each write. -/
def applyWrite : WriteOp → RemoteDb → RemoteDb
  | .saveInventoryItem item newId, db => (saveInventoryItemSupabase db item newId).1
  | .deleteInventoryItem id, db => deleteInventoryItemSupabase db id
  | .recordSale sale newId, db => recordSaleSupabase db sale newId
  | .saveEmployee e newId, db => saveEmployeeSupabase db e newId
  | .deleteEmployee id, db => deleteEmployeeSupabase db id
  | .updateEmployeeOrder ids, db => updateEmployeeOrderSupabase db ids
  | .toggleAttendance eid d newId, db => (toggleAttendanceSupabase db eid d newId).1
  | .setWeeklyPaid eid w paid, db => setWeeklyPaidSupabase db eid w paid
  | .saveDeduction eid w amount, db => saveDeductionSupabase db eid w amount
  | .saveStore store newId, db => saveStoreSupabase db store newId
  | .deleteStore id, db => deleteStoreSupabase db id
  | .saveStoreDailySale sid d amount, db => saveStoreDailySaleSupabase db sid d amount
  | .saveStoreMonthlyExpenses sid ym v, db =>
      saveStoreMonthlyExpensesSupabase db sid ym v

/-- The `cacheInvalidate` arguments the facade issues after each write
    resolves. -/
def invalidations : WriteOp → List String
  | .saveInventoryItem _ _ => ["inventory"]
  | .deleteInventoryItem _ => ["inventory"]
  | .recordSale _ _ => ["sales", "inventory"]
  | .saveEmployee _ _ => ["employees"]
  | .deleteEmployee _ => ["employees"]
  | .updateEmployeeOrder _ => ["employees"]
  | .toggleAttendance _ _ _ => ["attendance:"]
  | .setWeeklyPaid _ _ _ => ["weeklyPayments:"]
  | .saveDeduction _ _ _ => ["deductions:", "deductionsRange:"]
  | .saveStore _ _ => ["stores", "storeSales:", "storeMonthlyExpenses:"]
  | .deleteStore _ => ["stores", "storeSales:", "storeMonthlyExpenses:"]
  | .saveStoreDailySale _ _ _ => ["storeSales:"]
  | .saveStoreMonthlyExpenses sid ym _ =>
      ["storeMonthlyExpenses:" ++ (sid ++ ":" ++ ym)]

/-- The entity families of the facade. -/
inductive Family where
  | inventory | sales | employees | attendance | weeklyPayments
  | deductions | stores | storeSales | storeMonthlyExpenses
  deriving Repr, DecidableEq

def readFamily : ReadOp → Family
  | .inventory => .inventory
  | .sales => .sales
  | .employees => .employees
  | .attendance _ _ => .attendance
  | .weeklyPayments _ => .weeklyPayments
  | .deductionsWeek _ => .deductions
  | .deductionsRange _ _ => .deductions
  | .stores => .stores
  | .storeSales _ _ => .storeSales
  | .monthlyExpenses _ _ => .storeMonthlyExpenses

def writeFamily : WriteOp → Family
  | .saveInventoryItem _ _ => .inventory
  | .deleteInventoryItem _ => .inventory
  | .recordSale _ _ => .sales
  | .saveEmployee _ _ => .employees
  | .deleteEmployee _ => .employees
  | .updateEmployeeOrder _ => .employees
  | .toggleAttendance _ _ _ => .attendance
  | .setWeeklyPaid _ _ _ => .weeklyPayments
  | .saveDeduction _ _ _ => .deductions
  | .saveStore _ _ => .stores
  | .deleteStore _ => .stores
  | .saveStoreDailySale _ _ _ => .storeSales
  | .saveStoreMonthlyExpenses _ _ _ => .storeMonthlyExpenses

/-- A facade write on the remote branch: apply the backend write, then
    run its cache invalidations. -/
def runWrite (w : WriteOp) (db : RemoteDb) (c : List CacheEntry) :
    RemoteDb × List CacheEntry :=
  (applyWrite w db, (invalidations w).foldl cacheInvalidate c)

/-- A facade read on the remote branch: `cachedRead` under the read's
    key, fetching from the remote state on a miss. -/
def runRead (r : ReadOp) (db : RemoteDb) (c : List CacheEntry) (now : Int) :
    FetchVal × List CacheEntry :=
  cachedRead now c (readKey r) (fetch r db)

/-- A well-formed cache for remote state `db`: unique keys, every key the
    key of some read, and every entry holding exactly what that read's
    fetcher returns on `db`. -/
def CacheGood (db : RemoteDb) (c : List CacheEntry) : Prop :=
  ((c.map CacheEntry.key).Nodup)
  ∧ (∀ e ∈ c, ∃ r : ReadOp, e.key = readKey r)
  ∧ (∀ e ∈ c, ∀ r : ReadOp, e.key = readKey r → e.data = fetch r db)

/-! ## Cache-key facts

The parameterized keys never collide with the bare family prefixes used
for invalidation: the parameter part is never empty (a date renders to a
non-empty string; two-parameter keys contain a separating `:`). -/

theorem toDigitsCore_len (b : Nat) :
    ∀ (fuel n : Nat) (ds : List Char),
      ds.length + 1 ≤ (Nat.toDigitsCore b (fuel + 1) n ds).length := by
  intro fuel
  induction fuel with
  | zero =>
      intro n ds
      unfold Nat.toDigitsCore
      by_cases h : n / b = 0
      · rw [if_pos h]
        simp
      · rw [if_neg h]
        unfold Nat.toDigitsCore
        simp
  | succ fuel ih =>
      intro n ds
      unfold Nat.toDigitsCore
      by_cases h : n / b = 0
      · rw [if_pos h]
        simp
      · rw [if_neg h]
        have := ih (n / b) (Nat.digitChar (n % b) :: ds)
        simp only [List.length_cons] at this
        omega

theorem natRepr_len (n : Nat) : 1 ≤ (Nat.repr n).length := by
  have h1 : (Nat.repr n).length = (Nat.toDigits 10 n).length := rfl
  rw [h1]
  unfold Nat.toDigits
  have := toDigitsCore_len 10 n n []
  simpa using this

theorem intToString_len (i : Int) : 1 ≤ (toString i).length := by
  cases i with
  | ofNat m => exact natRepr_len m
  | negSucc m =>
      have h1 : toString (Int.negSucc m) = "-" ++ toString (m + 1) := rfl
      have h2 : toString (m + 1) = Nat.repr (m + 1) := rfl
      rw [h1, String.length_append, h2]
      have := natRepr_len (m + 1)
      omega

theorem pairParam_len (s e : Int) :
    1 ≤ (toString s ++ ":" ++ toString e).length := by
  rw [String.length_append, String.length_append]
  have h1 : (":" : String).length = 1 := rfl
  omega

theorem strPairParam_len (sid ym : String) : 1 ≤ (sid ++ ":" ++ ym).length := by
  rw [String.length_append, String.length_append]
  have h1 : (":" : String).length = 1 := rfl
  omega

/-- A string with prefix `base` differs from any string `base` is not a
    prefix of. -/
theorem ne_of_not_pre (base rest p : String)
    (h : base.data.isPrefixOf p.data = false) : base ++ rest ≠ p := by
  intro he
  have hpre : base.data <+: p.data := by
    rw [← he]
    show base.data <+: base.data ++ rest.data
    exact List.prefix_append _ _
  rw [← List.isPrefixOf_iff_prefix] at hpre
  rw [h] at hpre
  cases hpre

/-- A string with a non-empty suffix after `base` differs from `base`. -/
theorem ne_self_append (base rest : String) (h : 1 ≤ rest.length) :
    base ++ rest ≠ base := by
  intro he
  have := congrArg String.length he
  rw [String.length_append] at this
  omega

theorem jsStartsWith_append (base rest : String) :
    jsStartsWith (base ++ rest) base = true := by
  unfold jsStartsWith
  rw [List.isPrefixOf_iff_prefix]
  show base.data <+: base.data ++ rest.data
  exact List.prefix_append _ _

/-- No read's key equals a bare invalidation prefix. -/
theorem readKey_ne_bare (r : ReadOp) (p : String)
    (hp : p ∈ (["attendance:", "weeklyPayments:", "deductions:",
        "deductionsRange:", "storeSales:", "storeMonthlyExpenses:"] : List String)) :
    readKey r ≠ p := by
  simp only [List.mem_cons, List.not_mem_nil, or_false] at hp
  cases r with
  | inventory =>
      rcases hp with rfl | rfl | rfl | rfl | rfl | rfl <;> decide
  | sales =>
      rcases hp with rfl | rfl | rfl | rfl | rfl | rfl <;> decide
  | employees =>
      rcases hp with rfl | rfl | rfl | rfl | rfl | rfl <;> decide
  | stores =>
      rcases hp with rfl | rfl | rfl | rfl | rfl | rfl <;> decide
  | attendance s e =>
      rcases hp with rfl | rfl | rfl | rfl | rfl | rfl
      · exact ne_self_append _ _ (pairParam_len s e)
      all_goals exact ne_of_not_pre _ _ _ (by decide)
  | weeklyPayments w =>
      rcases hp with rfl | rfl | rfl | rfl | rfl | rfl
      · exact ne_of_not_pre _ _ _ (by decide)
      · exact ne_self_append _ _ (intToString_len w)
      all_goals exact ne_of_not_pre _ _ _ (by decide)
  | deductionsWeek w =>
      rcases hp with rfl | rfl | rfl | rfl | rfl | rfl
      · exact ne_of_not_pre _ _ _ (by decide)
      · exact ne_of_not_pre _ _ _ (by decide)
      · exact ne_self_append _ _ (intToString_len w)
      all_goals exact ne_of_not_pre _ _ _ (by decide)
  | deductionsRange s e =>
      rcases hp with rfl | rfl | rfl | rfl | rfl | rfl
      · exact ne_of_not_pre _ _ _ (by decide)
      · exact ne_of_not_pre _ _ _ (by decide)
      · exact ne_of_not_pre _ _ _ (by decide)
      · exact ne_self_append _ _ (pairParam_len s e)
      all_goals exact ne_of_not_pre _ _ _ (by decide)
  | storeSales s e =>
      rcases hp with rfl | rfl | rfl | rfl | rfl | rfl
      · exact ne_of_not_pre _ _ _ (by decide)
      · exact ne_of_not_pre _ _ _ (by decide)
      · exact ne_of_not_pre _ _ _ (by decide)
      · exact ne_of_not_pre _ _ _ (by decide)
      · exact ne_self_append _ _ (pairParam_len s e)
      · exact ne_of_not_pre _ _ _ (by decide)
  | monthlyExpenses sid ym =>
      rcases hp with rfl | rfl | rfl | rfl | rfl | rfl
      · exact ne_of_not_pre _ _ _ (by decide)
      · exact ne_of_not_pre _ _ _ (by decide)
      · exact ne_of_not_pre _ _ _ (by decide)
      · exact ne_of_not_pre _ _ _ (by decide)
      · exact ne_of_not_pre _ _ _ (by decide)
      · exact ne_self_append _ _ (strPairParam_len sid ym)

theorem cacheInvalidate_sublist (c : List CacheEntry) (k : String) :
    (cacheInvalidate c k).Sublist c := by
  unfold cacheInvalidate
  by_cases h : c.any (fun e => e.key = k) = true
  · rw [if_pos h]
    exact List.eraseP_sublist c
  · rw [if_neg h]
    exact List.filter_sublist c

/-- Exact invalidation: no entry under the invalidated key survives
    (unique keys). -/
theorem invalidate_removes_exact (c : List CacheEntry) (k : String)
    (hnd : (c.map CacheEntry.key).Nodup) :
    ∀ e ∈ cacheInvalidate c k, e.key ≠ k := by
  unfold cacheInvalidate
  by_cases h : c.any (fun e => e.key = k) = true
  · rw [if_pos h]
    intro e he hek
    have hall := eraseP_any_eq_false CacheEntry.key
      (fun e => decide (e.key = k)) k (by intro y; simp) c hnd
    rw [List.any_eq_false] at hall
    exact hall e he (by simp [hek])
  · rw [if_neg h]
    intro e he hek
    have h2 : ∀ x ∈ c, ¬ ((decide (x.key = k)) = true) :=
      List.any_eq_false.mp (by simpa using h)
    exact h2 e (List.mem_filter.mp he).1 (by simp [hek])

/-- Prefix invalidation (no cache key equals the bare prefix): every
    surviving entry's key does not start with the prefix — in particular
    every parameterized key of the family is gone. -/
theorem invalidate_pre_survivors (c : List CacheEntry) (p : String)
    (hnop : ∀ e ∈ c, e.key ≠ p) :
    ∀ e ∈ cacheInvalidate c p, jsStartsWith e.key p = false := by
  unfold cacheInvalidate
  rw [if_neg ?hany]
  case hany =>
    intro hc
    obtain ⟨e, he, hk⟩ := List.any_eq_true.mp hc
    exact hnop e he (by simpa using hk)
  intro e he
  have h2 := List.of_mem_filter he
  simpa using h2

theorem invalidate_pre_removes (c : List CacheEntry) (p k : String)
    (hnop : ∀ e ∈ c, e.key ≠ p) (hsw : jsStartsWith k p = true) :
    ∀ e ∈ cacheInvalidate c p, e.key ≠ k := by
  intro e he hek
  have := invalidate_pre_survivors c p hnop e he
  rw [hek, hsw] at this
  cases this

theorem removal_mono (c : List CacheEntry) (k p : String)
    (h : ∀ e ∈ c, e.key ≠ k) :
    ∀ e ∈ cacheInvalidate c p, e.key ≠ k :=
  fun e he => h e ((cacheInvalidate_sublist c p).subset he)

theorem cacheGet_of_find_none {c : List CacheEntry} {key : String} (now : Int)
    (hfind : c.find? (fun e => e.key = key) = none) :
    cacheGet now c key = (none, c) := by
  unfold cacheGet
  rw [hfind]

theorem cacheGet_expired {c : List CacheEntry} {key : String} {entry : CacheEntry}
    (now : Int) (hfind : c.find? (fun e => e.key = key) = some entry)
    (h : CACHE_TTL_MS < now - entry.ts) :
    cacheGet now c key = (none, c.eraseP (fun e => e.key = key)) := by
  unfold cacheGet
  rw [hfind]
  show (if CACHE_TTL_MS < now - entry.ts
      then ((none : Option FetchVal), c.eraseP (fun e => e.key = key))
      else (some entry.data, c)) = _
  rw [if_pos h]

theorem cacheGet_fresh {c : List CacheEntry} {key : String} {entry : CacheEntry}
    (now : Int) (hfind : c.find? (fun e => e.key = key) = some entry)
    (h : ¬ CACHE_TTL_MS < now - entry.ts) :
    cacheGet now c key = (some entry.data, c) := by
  unfold cacheGet
  rw [hfind]
  show (if CACHE_TTL_MS < now - entry.ts
      then ((none : Option FetchVal), c.eraseP (fun e => e.key = key))
      else (some entry.data, c)) = _
  rw [if_neg h]

/-- The value a `cachedRead` returns is the fresh fetch, or the data of a
    live, non-null cache entry under its key. -/
theorem cachedRead_fst (now : Int) (c : List CacheEntry) (key : String)
    (v : FetchVal) :
    (cachedRead now c key v).1 = v
    ∨ ∃ e ∈ c, e.key = key ∧ e.data ≠ FetchVal.jsNull
        ∧ (cachedRead now c key v).1 = e.data := by
  rcases hfind : c.find? (fun e => e.key = key) with _ | entry
  · left
    unfold cachedRead
    rw [cacheGet_of_find_none now hfind]
  · by_cases hexp : CACHE_TTL_MS < now - entry.ts
    · left
      unfold cachedRead
      rw [cacheGet_expired now hfind hexp]
    · by_cases hnull : entry.data = FetchVal.jsNull
      · left
        unfold cachedRead
        rw [cacheGet_fresh now hfind hexp]
        show (if entry.data = FetchVal.jsNull then (v, cacheSet now c key v)
            else (entry.data, c)).1 = v
        rw [if_pos hnull]
      · right
        refine ⟨entry, List.mem_of_find?_eq_some hfind,
          by simpa using List.find?_some hfind, hnull, ?_⟩
        unfold cachedRead
        rw [cacheGet_fresh now hfind hexp]
        show (if entry.data = FetchVal.jsNull then (v, cacheSet now c key v)
            else (entry.data, c)).1 = entry.data
        rw [if_neg hnull]

theorem cachedRead_of_absent (now : Int) (c : List CacheEntry) (key : String)
    (v : FetchVal) (h : ∀ e ∈ c, e.key ≠ key) :
    (cachedRead now c key v).1 = v := by
  rcases cachedRead_fst now c key v with h1 | ⟨e, he, hk, _, _⟩
  · exact h1
  · exact absurd hk (h e he)

theorem find?_replaceFirstOrPush {α : Type} (p q : α → Bool) (x : α)
    (hx : p x = false) (himp : ∀ y, q y = true → p y = false) :
    ∀ l : List α, (replaceFirstOrPush q x l).find? p = l.find? p := by
  intro l
  induction l with
  | nil =>
      show [x].find? p = [].find? p
      rw [List.find?_cons, hx]
  | cons y rest ih =>
      by_cases hy : q y = true
      · rw [show replaceFirstOrPush q x (y :: rest) = x :: rest from by
          simp [replaceFirstOrPush, hy]]
        rw [List.find?_cons, List.find?_cons, hx, himp y hy]
      · rw [show replaceFirstOrPush q x (y :: rest)
            = y :: replaceFirstOrPush q x rest from by
          simp [replaceFirstOrPush, hy]]
        rw [List.find?_cons, List.find?_cons]
        cases hpy : p y with
        | true => rfl
        | false => exact ih

theorem read_after_write_of_removed (w : WriteOp) (r : ReadOp) (db : RemoteDb)
    (c : List CacheEntry) (now : Int)
    (hrm : ∀ e ∈ (invalidations w).foldl cacheInvalidate c, e.key ≠ readKey r) :
    (runRead r (runWrite w db c).1 (runWrite w db c).2 now).1
      = fetch r (runWrite w db c).1 := by
  unfold runRead runWrite
  exact cachedRead_of_absent now _ _ _ hrm

/-- C4. After a facade save/delete on an entity family, the next read of
    that family returns the value fetched from the post-write remote
    state — never a value cached before the write, even within the
    2-minute TTL; moreover `cacheInvalidate` deletes an exact key, and
    prefix invalidation removes every parameterized key with that prefix.
    Stated for well-formed caches (`CacheGood`): unique keys, keys of
    actual reads, entries coherent with the pre-write state. -/
theorem cache_reflects_write (w : WriteOp) (r : ReadOp)
    (hfam : readFamily r = writeFamily w)
    (db : RemoteDb) (c : List CacheEntry) (now : Int)
    (hgood : CacheGood db c) :
    ((runRead r (runWrite w db c).1 (runWrite w db c).2 now).1
        = fetch r (runWrite w db c).1)
    ∧ (∀ k : String, ∀ e ∈ cacheInvalidate c k, e.key ≠ k)
    ∧ (∀ p : String, (∀ e ∈ c, e.key ≠ p) →
        ∀ e ∈ cacheInvalidate c p, jsStartsWith e.key p = false) := by
  obtain ⟨hnd, hkeys, hcoh⟩ := hgood
  refine ⟨?_, fun k => invalidate_removes_exact c k hnd,
    fun p hp => invalidate_pre_survivors c p hp⟩
  have hb : ∀ p ∈ (["attendance:", "weeklyPayments:", "deductions:",
      "deductionsRange:", "storeSales:", "storeMonthlyExpenses:"] : List String),
      ∀ e ∈ c, e.key ≠ p := by
    intro p hp e he
    obtain ⟨r0, hr0⟩ := hkeys e he
    rw [hr0]
    exact readKey_ne_bare r0 p hp
  cases w with
  | saveInventoryItem item newId =>
      cases r <;> try exact Family.noConfusion hfam
      exact read_after_write_of_removed _ _ db c now
        (invalidate_removes_exact c "inventory" hnd)
  | deleteInventoryItem id =>
      cases r <;> try exact Family.noConfusion hfam
      exact read_after_write_of_removed _ _ db c now
        (invalidate_removes_exact c "inventory" hnd)
  | recordSale sale newId =>
      cases r <;> try exact Family.noConfusion hfam
      exact read_after_write_of_removed _ _ db c now
        (removal_mono _ "sales" "inventory"
          (invalidate_removes_exact c "sales" hnd))
  | saveEmployee e newId =>
      cases r <;> try exact Family.noConfusion hfam
      exact read_after_write_of_removed _ _ db c now
        (invalidate_removes_exact c "employees" hnd)
  | deleteEmployee id =>
      cases r <;> try exact Family.noConfusion hfam
      exact read_after_write_of_removed _ _ db c now
        (invalidate_removes_exact c "employees" hnd)
  | updateEmployeeOrder ids =>
      cases r <;> try exact Family.noConfusion hfam
      exact read_after_write_of_removed _ _ db c now
        (invalidate_removes_exact c "employees" hnd)
  | toggleAttendance eid d newId =>
      cases r <;> try exact Family.noConfusion hfam
      case attendance s e =>
        exact read_after_write_of_removed _ _ db c now
          (invalidate_pre_removes c "attendance:" _
            (hb "attendance:" (by simp))
            (jsStartsWith_append "attendance:" (toString s ++ ":" ++ toString e)))
  | setWeeklyPaid eid w0 paid =>
      cases r <;> try exact Family.noConfusion hfam
      case weeklyPayments w1 =>
        exact read_after_write_of_removed _ _ db c now
          (invalidate_pre_removes c "weeklyPayments:" _
            (hb "weeklyPayments:" (by simp))
            (jsStartsWith_append "weeklyPayments:" (toString w1)))
  | saveDeduction eid w0 amount =>
      cases r <;> try exact Family.noConfusion hfam
      case deductionsWeek w1 =>
        exact read_after_write_of_removed _ _ db c now
          (removal_mono _ _ "deductionsRange:"
            (invalidate_pre_removes c "deductions:" _
              (hb "deductions:" (by simp))
              (jsStartsWith_append "deductions:" (toString w1))))
      case deductionsRange s e =>
        refine read_after_write_of_removed _ _ db c now
          (invalidate_pre_removes (cacheInvalidate c "deductions:")
            "deductionsRange:" _ ?_
            (jsStartsWith_append "deductionsRange:" (toString s ++ ":" ++ toString e)))
        intro e2 he2
        exact hb "deductionsRange:" (by simp) e2
          ((cacheInvalidate_sublist c "deductions:").subset he2)
  | saveStore store newId =>
      cases r <;> try exact Family.noConfusion hfam
      exact read_after_write_of_removed _ _ db c now
        (removal_mono _ "stores" "storeMonthlyExpenses:"
          (removal_mono _ "stores" "storeSales:"
            (invalidate_removes_exact c "stores" hnd)))
  | deleteStore id =>
      cases r <;> try exact Family.noConfusion hfam
      exact read_after_write_of_removed _ _ db c now
        (removal_mono _ "stores" "storeMonthlyExpenses:"
          (removal_mono _ "stores" "storeSales:"
            (invalidate_removes_exact c "stores" hnd)))
  | saveStoreDailySale sid d amount =>
      cases r <;> try exact Family.noConfusion hfam
      case storeSales s e =>
        exact read_after_write_of_removed _ _ db c now
          (invalidate_pre_removes c "storeSales:" _
            (hb "storeSales:" (by simp))
            (jsStartsWith_append "storeSales:" (toString s ++ ":" ++ toString e)))
  | saveStoreMonthlyExpenses sid ym v =>
      cases r <;> try exact Family.noConfusion hfam
      case monthlyExpenses sid2 ym2 =>
        by_cases hkk : ("storeMonthlyExpenses:" ++ (sid2 ++ ":" ++ ym2))
            = ("storeMonthlyExpenses:" ++ (sid ++ ":" ++ ym))
        · refine read_after_write_of_removed _ _ db c now ?_
          intro e2 he2 hek
          exact invalidate_removes_exact c
            ("storeMonthlyExpenses:" ++ (sid ++ ":" ++ ym)) hnd e2 he2
            (by rw [hek]; exact hkk)
        · unfold runRead runWrite
          rcases cachedRead_fst now
              ((invalidations (WriteOp.saveStoreMonthlyExpenses sid ym v)).foldl
                cacheInvalidate c)
              (readKey (ReadOp.monthlyExpenses sid2 ym2))
              (fetch (ReadOp.monthlyExpenses sid2 ym2)
                (applyWrite (WriteOp.saveStoreMonthlyExpenses sid ym v) db))
            with h | ⟨e2, he2, hkey, hnn, hres⟩
          · exact h
          · rw [hres]
            have hec : e2 ∈ c := by
              have hsub := cacheInvalidate_sublist c
                ("storeMonthlyExpenses:" ++ (sid ++ ":" ++ ym))
              exact hsub.subset he2
            have hdata : e2.data = fetch (ReadOp.monthlyExpenses sid2 ym2) db :=
              hcoh e2 hec (ReadOp.monthlyExpenses sid2 ym2) hkey
            rw [hdata]
            have hne : ¬ (sid = sid2 ∧ ym = ym2) := by
              rintro ⟨h1, h2⟩
              exact hkk (by rw [h1, h2])
            have hget : getStoreMonthlyExpensesSupabase
                (saveStoreMonthlyExpensesSupabase db sid ym v) sid2 ym2
                = getStoreMonthlyExpensesSupabase db sid2 ym2 := by
              have htab : (saveStoreMonthlyExpensesSupabase db sid ym v).store_monthly_expenses
                  = replaceFirstOrPush
                      (fun r0 => r0.store_id = sid ∧ r0.year_month = ym)
                      (⟨sid, ym, v.monthlyRent, v.monthlyUtilityBills,
                        v.monthlyEmployeeSalaries, v.monthlyOtherExpenses⟩ : SmeDbRow)
                      db.store_monthly_expenses := rfl
              have hx : (decide (sid = sid2 ∧ ym = ym2)) = false := by
                simp [hne]
              have himp : ∀ y : SmeDbRow,
                  (decide (y.store_id = sid ∧ y.year_month = ym)) = true →
                  (decide (y.store_id = sid2 ∧ y.year_month = ym2)) = false := by
                intro y hy
                simp only [decide_eq_true_eq] at hy
                simp [hy.1, hy.2, hne]
              unfold getStoreMonthlyExpensesSupabase
              rw [htab, find?_replaceFirstOrPush
                (fun r0 : SmeDbRow => decide (r0.store_id = sid2 ∧ r0.year_month = ym2))
                (fun r0 : SmeDbRow => decide (r0.store_id = sid ∧ r0.year_month = ym))
                (⟨sid, ym, v.monthlyRent, v.monthlyUtilityBills,
                  v.monthlyEmployeeSalaries, v.monthlyOtherExpenses⟩ : SmeDbRow)
                hx himp db.store_monthly_expenses]
            show (match getStoreMonthlyExpensesSupabase db sid2 ym2 with
                  | some v0 => FetchVal.monthly v0
                  | none => FetchVal.jsNull)
                = (match getStoreMonthlyExpensesSupabase
                      (saveStoreMonthlyExpensesSupabase db sid ym v) sid2 ym2 with
                  | some v0 => FetchVal.monthly v0
                  | none => FetchVal.jsNull)
            rw [hget]

/-- Witness for C4 at a concrete input: saving an inventory item against
    an empty well-formed cache, then reading the inventory family. -/
theorem cache_reflects_write_witness :
    (runRead ReadOp.inventory
        (runWrite (WriteOp.saveInventoryItem ⟨none, "W", 1, 1, ""⟩ "id1")
          emptyRemoteDb []).1
        (runWrite (WriteOp.saveInventoryItem ⟨none, "W", 1, 1, ""⟩ "id1")
          emptyRemoteDb []).2 0).1
      = fetch ReadOp.inventory
          (runWrite (WriteOp.saveInventoryItem ⟨none, "W", 1, 1, ""⟩ "id1")
            emptyRemoteDb []).1 :=
  (cache_reflects_write (WriteOp.saveInventoryItem ⟨none, "W", 1, 1, ""⟩ "id1")
    ReadOp.inventory rfl emptyRemoteDb [] 0
    ⟨List.nodup_nil, fun e he => absurd he (List.not_mem_nil e),
     fun e he => absurd he (List.not_mem_nil e)⟩).1

end SalesTracker
